import Mathlib

/-!
Verification of the aggregation-and-curation pipelines of the spotify-mcp
repository (`src/spotify_mcp/server.py`, `src/spotify_mcp/spotify_api.py`).

The Python code is shallowly embedded: each pipeline becomes a pure Lean
function over explicit inputs, with the remote catalog service modelled as an
environment record of (possibly failing) functions; a raised exception from a
collaborator call is modelled as `Option.none` / `Except.error`.  Python dicts
are modelled as insertion-ordered association lists, Python sets as
duplicate-free insertion lists (only order-insensitive facts are proved about
them, since Python set iteration order is unspecified).  Python's stable
`list.sort` / `sorted` is modelled by `List.mergeSort`, which is also stable;
stable sorting by a key is order-unique, so this is faithful.  `str.lower()`
is modelled ASCII-wise via `Char.toLower` on the character data, and string
comparison (used for release-date ordering) as lexicographic comparison of
the character lists, matching Python's code-point comparison.
-/

/-- ASCII-wise model of Python `str.lower()` (acts on the character data). -/
def pyLower (s : String) : String := ⟨s.data.map Char.toLower⟩

/-- Model of Python's substring test `p in s` on strings. -/
def substrB (p s : String) : Bool :=
  s.data.tails.any (fun t => p.data.isPrefixOf t)

/-- Model of Python `s.startswith(p)`. -/
def startsWithStr (p s : String) : Bool := p.data.isPrefixOf s.data

/-- Strict lexicographic comparison of character lists: Python's `<` on `str`
(compare code points left to right, shorter prefix is smaller). -/
def lexLtB : List Char → List Char → Bool
  | [], [] => false
  | [], _ :: _ => true
  | _ :: _, [] => false
  | a :: as, b :: bs => if a < b then true else if b < a then false else lexLtB as bs

/-- `a ≤ b` on strings as Python's sort comparison uses it: `¬ (b < a)`. -/
def strLeB (a b : String) : Bool := !(lexLtB b.data a.data)

/-- Lookup in an insertion-ordered association list (Python dict read). -/
def alookup {β : Type} (k : String) : List (String × β) → Option β
  | [] => none
  | (k', v) :: m => if k' = k then some v else alookup k m

/-- Write `m[k] = v` on an insertion-ordered association list: an existing key
keeps its position and gets the new value, a new key is appended at the end
(Python dict update semantics). -/
def aupsert {β : Type} (m : List (String × β)) (k : String) (v : β) : List (String × β) :=
  match m with
  | [] => [(k, v)]
  | (k', v') :: rest => if k' = k then (k, v) :: rest else (k', v') :: aupsert rest k v

/-- `m[k] = m.get(k, 0) + 1` on a dict of counters. -/
def abump (m : List (String × Nat)) (k : String) : List (String × Nat) :=
  aupsert m k ((alookup k m).getD 0 + 1)

/-- Counter read `m.get(k, 0)`. -/
def acount (m : List (String × Nat)) (k : String) : Nat := (alookup k m).getD 0

/-- Add to a Python set modelled as a duplicate-free list (insertion order;
only order-insensitive facts are proved about such lists). -/
def setAdd (s : List String) (x : String) : List String :=
  if x ∈ s then s else s ++ [x]

/-- `range(0, len(l), n)` slicing: split `l` into consecutive chunks of at most
`n` elements (`l[i:i+n]`).  The sources only use `n = 50` and `n = 100`. -/
def chunksOfAux {α : Type} (n : Nat) : Nat → List α → List (List α)
  | 0, _ => []
  | _, [] => []
  | fuel + 1, x :: xs => (x :: xs).take n :: chunksOfAux n fuel ((x :: xs).drop n)

/-- `range(0, len(l), n)` slicing continued: the fuel `l.length` always
suffices because each step removes at least one element when `0 < n`. -/
def chunksOf {α : Type} (n : Nat) (l : List α) : List (List α) :=
  if n = 0 then [] else chunksOfAux n l.length l

/-- A whitespace-separated token split modelling Python `s.split()`
(split on runs of spaces, no empty tokens). -/
def splitWSAux : List Char → List Char → List (List Char)
  | [], cur => if cur = [] then [] else [cur.reverse]
  | c :: cs, cur =>
    if c = ' ' then (if cur = [] then splitWSAux cs [] else cur.reverse :: splitWSAux cs [])
    else splitWSAux cs (c :: cur)

/-- Python `s.split()` (whitespace tokenisation, space characters only). -/
def splitWS (s : String) : List String := (splitWSAux s.data []).map (fun l => ⟨l⟩)

/-- The last `:`-separated segment of a string: `s.split(':')[-1]` when `:`
occurs in `s`, and `s` itself otherwise (both cases coincide). -/
def lastColonSeg (s : String) : String :=
  ⟨s.data.foldl (fun acc ch => if ch = ':' then [] else acc ++ [ch]) []⟩

/-! ## ArtistDeepDive: track collection and deduplication (server.py 492-554) -/

/-- A track dict as assembled by the ArtistDeepDive collection loop
(server.py 499-506). -/
structure DTrack where
  id : String
  name : String
  popularity : Int
  releaseDate : String
  albumType : String
  albumName : String
deriving DecidableEq, Repr

/-- `full_track.get('popularity', 0)` / `track.get('popularity', 0)`:
the popularity value used for a collected or candidate track (absent → 0,
no clamping). -/
def candPop (p : Option Int) : Int := p.getD 0

/-- The dedup key `track['name'].lower()` (server.py 516). -/
def lowKey (t : DTrack) : String := pyLower t.name

/-- One step of the dedup scan (server.py 517-518): replace the entry for the
key only when the new track's popularity is strictly greater. -/
def dedupeStep (m : List (String × DTrack)) (t : DTrack) : List (String × DTrack) :=
  match alookup (lowKey t) m with
  | none => m ++ [(lowKey t, t)]
  | some b => if b.popularity < t.popularity then aupsert m (lowKey t) t else m

/-- The key→best map after the whole left-to-right dedup scan
(server.py 514-518). -/
def dedupeMap (ts : List DTrack) : List (String × DTrack) := ts.foldl dedupeStep []

/-- `unique_tracks = list(seen.values())` (server.py 519). -/
def dedupe (ts : List DTrack) : List DTrack := (dedupeMap ts).map Prod.snd

/-- The running best of a key group: `best1` folds one more track into the
current best-so-far, replacing it only on strictly greater popularity. -/
def best1 (o : Option DTrack) (t : DTrack) : Option DTrack :=
  match o with
  | none => some t
  | some b => if b.popularity < t.popularity then some t else some b

/-! ## ArtistDeepDive: discography split (server.py 522-554) -/

/-- `sorted(unique_tracks, key=popularity, reverse=True)[:20]` (server.py 523).
Python's sort is stable and `reverse=True` keeps equal elements in their
original order, which is `mergeSort` with the flipped comparison. -/
def bestOf (unique : List DTrack) : List DTrack :=
  (unique.mergeSort (fun a b => b.popularity ≤ a.popularity)).take 20

/-- `best_of_ids` (server.py 524). -/
def bestOfIds (unique : List DTrack) : List String := (bestOf unique).map DTrack.id

/-- The Deep Cuts selection (server.py 533-537). -/
def deepCuts (unique : List DTrack) (threshold : Int) : List DTrack :=
  ((unique.filter (fun t =>
      t.popularity < threshold ∧ t.id ∉ bestOfIds unique ∧ t.albumType = "album")).mergeSort
    (fun a b => a.popularity ≤ b.popularity)).take 25

/-- `sorted(unique_tracks, key=release_date)` (server.py 546): stable sort by
the release-date string under Python's lexicographic string comparison. -/
def chronological (unique : List DTrack) : List DTrack :=
  unique.mergeSort (fun a b => strLeB a.releaseDate b.releaseDate)

/-- The per-call batches of the Through the Years population loop
(server.py 553-554): the chronological ids in chunks of 100. -/
def chronoChunks (unique : List DTrack) : List (List String) :=
  chunksOf 100 ((chronological unique).map DTrack.id)

/-! ## Genre classifier (server.py 42-53, 628-634) -/

/-- The fixed `GENRE_CATEGORIES` taxonomy (server.py 42-53). -/
def GENRE_CATEGORIES : List (String × List String) :=
  [("🎸 Rock", ["rock", "metal", "punk", "grunge", "alternative", "indie rock", "hard rock"]),
   ("🎵 Pop", ["pop", "dance pop", "electropop", "synth-pop", "indie pop"]),
   ("🎤 Hip-Hop", ["hip hop", "rap", "trap", "southern hip hop", "gangster rap"]),
   ("🎧 Electronic", ["electronic", "edm", "house", "techno", "dubstep", "trance", "drum and bass"]),
   ("🎷 Jazz", ["jazz", "bebop", "swing", "smooth jazz", "jazz fusion"]),
   ("🎻 Classical", ["classical", "orchestra", "symphony", "baroque", "opera"]),
   ("🤠 Country", ["country", "americana", "folk", "bluegrass", "country rock"]),
   ("🎺 R&B", ["r&b", "soul", "funk", "neo soul", "motown"]),
   ("🌍 World", ["latin", "reggae", "afrobeat", "k-pop", "j-pop", "reggaeton", "bossa nova"]),
   ("😴 Chill", ["ambient", "lo-fi", "chill", "downtempo", "chillwave"])]

/-- One category's score (server.py 631): the number of genre tags `g` such
that some keyword is a substring of `g.lower()` (a tag counts once even if it
matches several keywords, due to the short-circuiting `any`). -/
def catScore (tags : List String) (kws : List String) : Nat :=
  tags.countP (fun g => kws.any (fun kw => substrB kw (pyLower g)))

/-- The classifier fold (server.py 628-634): strict-improvement scan over the
taxonomy starting from `(None, 0)`. -/
def classifyFold (tags : List String) (cats : List (String × List String))
    (init : Option String × Nat) : Option String × Nat :=
  cats.foldl (fun best c =>
    let s := catScore tags c.2
    if best.2 < s then (some c.1, s) else best) init

/-- `classify(genre_tags)`: the `(best_category, best_score)` pair computed by
the PlaylistLibrarian scoring loop. -/
def classify (tags : List String) : Option String × Nat :=
  classifyFold tags GENRE_CATEGORIES (none, 0)

/-- The maximum category score over a taxonomy segment. -/
def maxScore (tags : List String) (cats : List (String × List String)) : Nat :=
  cats.foldr (fun c m => max (catScore tags c.2) m) 0

/-! ## Discover: data model (server.py 766-948) -/

/-- A catalog artist as the pipelines read it: `{id, name, genres}`. -/
structure SArtist where
  id : String
  name : String
  genres : List String
deriving DecidableEq, Repr

/-- A catalog track as the pipelines read it: `artists` is the list of
`(id, name)` pairs of `track['artists']`; `popularity` and `durationMs` are
absent-able fields read with `.get`. -/
structure STrack where
  id : String
  name : String
  artists : List (String × String)
  popularity : Option Int
  durationMs : Option Int
deriving DecidableEq, Repr

/-- A Discover candidate record (server.py 862-869 / 892-899). -/
structure Cand where
  id : String
  name : String
  artist : String
  artistId : Option String
  popularity : Int
  sourceGenre : String
deriving DecidableEq, Repr

/-- `seed_popularity = track.get('popularity', 50)` (server.py 807):
the seed popularity derived from a track seed defaults to 50, not 0,
and is not clamped. -/
def trackSeedPop (t : STrack) : Int := t.popularity.getD 50

/-- A collaborator call made by the Discover pipeline (one constructor per
catalog-service invocation, with its arguments). -/
inductive DCall where
  | searchArtist (q : String)
  | getArtist (id : String)
  | getTrack (id : String)
  | topArtists (timeRange : String) (limit : Nat)
  | recent (limit : Nat)
  | saved (limit : Nat)
  | searchGenre (genre : String) (yearRange : String) (limit : Nat)
  | artistTopTracks (id : String)
  | createPlaylist (nm : String)
  | addTracks (pid : String) (ids : List String)
deriving DecidableEq, Repr

/-- The catalog collaborator as Discover consumes it.  A field returning
`none` models that call raising a service exception. -/
structure DiscEnv where
  searchArtist : String → Option (List SArtist)
  getArtist : String → Option SArtist
  getTrack : String → Option STrack
  topArtists : String → Nat → Option (List SArtist)
  recentIds : Option (List String)
  savedIds : Option (List String)
  searchGenre : String → String → Option (List STrack)
  artistTopTracks : String → Option (List STrack)
  createPlaylist : String → Option String

/-- The validated Discover arguments (server.py 768-772).  `limit` is the raw
requested limit; the pipeline caps it at 50 (line 771). -/
structure DiscArgs where
  seedType : String
  seedValue : Option String
  yearRange : String
  limit : Nat
  createPlaylist : Bool
deriving DecidableEq, Repr

/-- The Discover result as far as the claims concern it. -/
structure DiscResult where
  seedGenres : List String
  recommendations : List Cand
  playlistCreated : Option String
deriving DecidableEq, Repr

/-- Python falsiness of the optional `seed_value` (`not seed_value`,
server.py 781): missing or the empty string. -/
def seedMissing (v : Option String) : Prop := v = none ∨ v = some ""

instance : DecidablePred seedMissing := fun v => by unfold seedMissing; infer_instance

/-! ## Discover: seed resolution (server.py 787-830) -/

/-- The genre-frequency tally of the listening-history seed
(server.py 818-821): a dict keyed in first-occurrence order. -/
def tallyGenres (tops : List SArtist) : List (String × Nat) :=
  tops.foldl (fun m a => a.genres.foldl (fun m' g => abump m' g) m) []

/-- `sorted(genre_counts.keys(), key=lambda g: -genre_counts[g])[:3]`
(server.py 823): stable descending-count sort of the keys in insertion
order, then the first three. -/
def topTallyGenres (counts : List (String × Nat)) : List String :=
  ((counts.map Prod.fst).mergeSort (fun g1 g2 => acount counts g2 ≤ acount counts g1)).take 3

/-- Outcome of seed resolution: the seed genres, the seed artist name (if
any), and the seed popularity. -/
structure SeedInfo where
  genres : List String
  artistName : Option String
  popularity : Int
deriving DecidableEq, Repr

/-- Seed resolution (server.py 787-824), with the calls it issues. -/
def resolveSeed (env : DiscEnv) (a : DiscArgs) : Except String SeedInfo × List DCall :=
  if a.seedType = "artist" then
    let sv := a.seedValue.getD ""
    match env.searchArtist sv with
    | none => (.error "Spotify Client error", [.searchArtist sv])
    | some [] => (.error ("Artist '" ++ sv ++ "' not found."), [.searchArtist sv])
    | some (ar :: _) =>
      match env.getArtist ar.id with
      | none => (.error "Spotify Client error", [.searchArtist sv, .getArtist ar.id])
      | some det =>
        (.ok ⟨det.genres.take 3, some ar.name, 50⟩, [.searchArtist sv, .getArtist ar.id])
  else if a.seedType = "track" then
    let sv := a.seedValue.getD ""
    let tid := lastColonSeg sv
    match env.getTrack tid with
    | none => (.error "Spotify Client error", [.getTrack tid])
    | some t =>
      match t.artists.head? with
      | none => (.ok ⟨[], none, trackSeedPop t⟩, [.getTrack tid])
      | some (aid, _) =>
        match env.getArtist aid with
        | none => (.error "Spotify Client error", [.getTrack tid, .getArtist aid])
        | some det =>
          (.ok ⟨det.genres.take 3, some det.name, trackSeedPop t⟩,
           [.getTrack tid, .getArtist aid])
  else
    match env.topArtists "medium_term" 10 with
    | none => (.error "Spotify Client error", [.topArtists "medium_term" 10])
    | some tops =>
      (.ok ⟨topTallyGenres (tallyGenres tops), none, 50⟩, [.topArtists "medium_term" 10])

/-! ## Discover: exclusion set (server.py 832-838) -/

/-- The exclusion id set (recent plays ∪ saved library), best-effort: a
failure of the first fetch leaves it empty, a failure of the second keeps
just the recent ids (the `try` block updates the set in two steps). -/
def discoverExclude (env : DiscEnv) : List String :=
  match env.recentIds with
  | none => []
  | some r =>
    match env.savedIds with
    | none => r
    | some s => r ++ s

/-- The calls issued while building the exclusion set: the saved-library
fetch only happens if the recent-plays fetch did not raise. -/
def excludeTrace (env : DiscEnv) : List DCall :=
  match env.recentIds with
  | none => [.recent 50]
  | some _ => [.recent 50, .saved 100]

/-! ## Discover: candidate generation (server.py 840-904) -/

/-- The mutable generation state: accepted candidates, seen track ids, and
the per-artist acceptance counters of the genre stage. -/
structure GenState where
  recs : List Cand
  seen : List String
  counts : List (String × Nat)
deriving DecidableEq, Repr

/-- The accepted-candidate update of the genre stage (server.py 858-869):
append the candidate record, mark the id seen, and bump the primary artist's
counter.  The counter bump is guarded by Python truthiness
(`if artist_id:`, server.py 859): a missing artist list (`None`) and the
empty-string id are both falsy and are never counted. -/
def stage3Accept (genre : String) (st : GenState) (t : STrack) : GenState :=
  { recs := st.recs ++ [⟨t.id, t.name, (t.artists.head?.map Prod.snd).getD "Unknown",
      t.artists.head?.map Prod.fst, candPop t.popularity, genre⟩],
    seen := st.seen ++ [t.id],
    counts := match t.artists.head?.map Prod.fst with
      | none => st.counts
      | some a => if a = "" then st.counts else abump st.counts a }

/-- Processing of one genre-search track continued (server.py 848-869): skip
if seen or excluded, skip if the track's primary artist already contributed
three accepted candidates, otherwise accept and count.  The cap check is
guarded by Python truthiness (`if artist_id and ... >= 3`, server.py 855):
a falsy artist id — `None` or the empty string — is never capped. -/
def stage3Track (ex : List String) (genre : String) (st : GenState) (t : STrack) : GenState :=
  if t.id ∈ st.seen ∨ t.id ∈ ex then st
  else if (t.artists.head?.map Prod.fst).any
      (fun a => ¬ a = "" ∧ 3 ≤ acount st.counts a) then st
  else stage3Accept genre st t

/-- Processing of one seed genre (server.py 845-872): a raised genre search is
caught and skipped, otherwise its tracks are scanned in order. -/
def stage3Genre (ex : List String) (st : GenState) (g : String × Option (List STrack)) : GenState :=
  match g.2 with
  | none => st
  | some ts => ts.foldl (stage3Track ex g.1) st

/-- The whole genre-driven generation stage over the per-genre search
results. -/
def stage3 (ex : List String) (searched : List (String × Option (List STrack))) : GenState :=
  searched.foldl (stage3Genre ex) ⟨[], [], []⟩

/-- The order-preserving similar-artist filter (server.py 879-882): keep top
artists whose genre set meets the seed genres. -/
def matchingArtists (seedGenres : List String) (tops : List SArtist) : List SArtist :=
  tops.filter (fun ar => ar.genres.any (fun g => g ∈ seedGenres))

/-- Augmentation by one matching artist (server.py 885-902): up to three of
its top tracks, seen/exclusion dedup but no per-artist cap; a raised
top-tracks fetch is caught and the artist skipped. -/
def stage4Artist (ex : List String) (fetchTop : String → Option (List STrack))
    (st : GenState) (ar : SArtist) : GenState :=
  match fetchTop ar.id with
  | none => st
  | some ts =>
    (ts.take 3).foldl (fun s t =>
      if t.id ∈ s.seen ∨ t.id ∈ ex then s
      else
        { s with
          seen := s.seen ++ [t.id],
          recs := s.recs ++ [⟨t.id, t.name, ar.name, some ar.id,
            candPop t.popularity, "top_artist_match"⟩] }) st

/-- The whole similar-artist augmentation stage (server.py 874-904): a raised
top-artists fetch is caught and the stage skipped; at most five matching
artists are used. -/
def stage4 (ex : List String) (fetchTop : String → Option (List STrack))
    (seedGenres : List String) (tops? : Option (List SArtist)) (st : GenState) : GenState :=
  match tops? with
  | none => st
  | some tops => ((matchingArtists seedGenres tops).take 5).foldl (stage4Artist ex fetchTop) st

/-! ## Discover: ranking (server.py 906-912) -/

/-- `abs(t['popularity'] - seed_popularity)` (server.py 908). -/
def popDist (seedPop : Int) (c : Cand) : Nat := (c.popularity - seedPop).natAbs

/-- The final ranking (server.py 911-912): stable sort of the full candidate
set by popularity distance to the seed, then truncation to the effective
limit. -/
def rankTruncate (recs : List Cand) (seedPop : Int) (effLimit : Nat) : List Cand :=
  (recs.mergeSort (fun a b => popDist seedPop a ≤ popDist seedPop b)).take effLimit

/-! ## Discover: full pipeline (server.py 766-948) -/

/-- The per-genre search results and their calls (server.py 845-847). -/
def genreSearches (env : DiscEnv) (yr : String) (gs : List String) :
    List (String × Option (List STrack)) :=
  gs.map (fun g => (g, env.searchGenre g yr))

/-- The calls issued by the augmentation stage (server.py 877-886). -/
def stage4Trace (env : DiscEnv) (seedGenres : List String) : List DCall :=
  .topArtists "medium_term" 20 ::
    (match env.topArtists "medium_term" 20 with
     | none => []
     | some tops => ((matchingArtists seedGenres tops).take 5).map (fun ar => .artistTopTracks ar.id))

/-- The candidate-generation stages of one Discover run (server.py 840-904):
the genre-driven stage, then, for artist and track seeds only, the
similar-artist augmentation stage. -/
def discoverStages (env : DiscEnv) (a : DiscArgs) (info : SeedInfo) : GenState :=
  let ex := discoverExclude env
  let st3 := stage3 ex (genreSearches env a.yearRange info.genres)
  if a.seedType = "artist" ∨ a.seedType = "track" then
    stage4 ex env.artistTopTracks info.genres (env.topArtists "medium_term" 20) st3
  else st3

/-- Steps 2-6 of Discover (server.py 832-948), after seed resolution
succeeded with a non-empty genre list. -/
def discoverCore (env : DiscEnv) (a : DiscArgs) (effLimit : Nat) (info : SeedInfo) :
    Except String DiscResult × List DCall :=
  let recs := rankTruncate (discoverStages env a info).recs info.popularity effLimit
  let baseTrace := excludeTrace env ++
    info.genres.map (fun g => DCall.searchGenre g a.yearRange 20) ++
    (if a.seedType = "artist" ∨ a.seedType = "track" then stage4Trace env info.genres else [])
  if a.createPlaylist ∧ recs ≠ [] then
    let nm := "Discover: " ++ info.artistName.getD "My Genres"
    match env.createPlaylist nm with
    | none => (.error "Spotify Client error", baseTrace ++ [.createPlaylist nm])
    | some pid =>
      (.ok ⟨info.genres, recs, some pid⟩,
       baseTrace ++ [.createPlaylist nm, .addTracks pid (recs.map Cand.id)])
  else (.ok ⟨info.genres, recs, none⟩, baseTrace)

/-- The Discover pipeline (server.py 766-948): argument capping and
validation, seed resolution, then the core stages.  An early validation
failure returns a user-facing message with no collaborator call issued. -/
def discover (env : DiscEnv) (a : DiscArgs) : Except String DiscResult × List DCall :=
  let effLimit := min a.limit 50
  if ¬ (a.seedType = "artist" ∨ a.seedType = "track" ∨ a.seedType = "listening_history") then
    (.error ("Invalid seed_type: " ++ a.seedType ++
      ". Must be 'artist', 'track', or 'listening_history'."), [])
  else if (a.seedType = "artist" ∨ a.seedType = "track") ∧ seedMissing a.seedValue then
    (.error ("seed_value is required for seed_type '" ++ a.seedType ++ "'."), [])
  else
    match resolveSeed env a with
    | (.error e, tr) => (.error e, tr)
    | (.ok info, tr) =>
      if info.genres = [] then
        (.error "Could not determine genres for recommendations. Try a different seed.", tr)
      else
        let (r, tr2) := discoverCore env a effLimit info
        (r, tr ++ tr2)

/-! ## Batch retrieval (spotify_api.py 420-440) -/

/-- One chunk of `get_artists_for_tracks` (spotify_api.py 425-428): insert
the primary-artist id of every truthy, artist-bearing track of the response
into the accumulating set. -/
def gaftChunk (s : List String) (resp : List (Option STrack)) : List String :=
  resp.foldl (fun s' t? =>
    match t? with
    | none => s'
    | some t =>
      match t.artists.head? with
      | none => s'
      | some (aid, _) => setAdd s' aid) s

/-- The chunk loop of `get_artists_for_tracks`: one collaborator call per
chunk, stopping at the first raised call (the exception propagates). Returns
the chunks actually fetched and the final set (as an insertion-ordered list;
Python's set iteration order is unspecified, so only order-insensitive facts
are proved about it). -/
def gaftGo (fetch : List String → Option (List (Option STrack))) :
    List (List String) → List String → List (List String) × Option (List String)
  | [], s => ([], some s)
  | c :: cs, s =>
    match fetch c with
    | none => ([c], none)
    | some resp =>
      let (tr, r) := gaftGo fetch cs (gaftChunk s resp)
      (c :: tr, r)

/-- `Client.get_artists_for_tracks` (spotify_api.py 420-429): 50-sized chunks
of the track ids, one bulk call per chunk, distinct primary-artist ids
accumulated in a set. -/
def getArtistsForTracks (fetch : List String → Option (List (Option STrack)))
    (ids : List String) : List (List String) × Option (List String) :=
  gaftGo fetch (chunksOf 50 ids) []

/-- The primary-artist ids contributed by one chunk response, in response
order and with duplicates (the raw items, before the set collapses them). -/
def gaftChunkItems (resp : List (Option STrack)) : List String :=
  resp.filterMap (fun t? => t?.bind (fun t => t.artists.head?.map Prod.fst))

/-- The behaviour claimed by the spec's batch contract, for comparison:
the per-chunk items concatenated in chunk order (duplicates preserved). -/
def gaftConcatSpec (fetch : List String → Option (List (Option STrack)))
    (ids : List String) : Option (List String) :=
  ((chunksOf 50 ids).mapM fetch).map (fun rs => (rs.map gaftChunkItems).flatten)

/-- One chunk of `get_artists_genres` (spotify_api.py 436-439): write each
truthy artist's genres under its id in the accumulating dict. -/
def gagChunk (m : List (String × List String)) (resp : List (Option SArtist)) :
    List (String × List String) :=
  resp.foldl (fun m' a? =>
    match a? with
    | none => m'
    | some ar => aupsert m' ar.id ar.genres) m

/-- The chunk loop of `get_artists_genres`: one bulk call per chunk, the
exception of a failed call propagating. -/
def gagGo (fetchA : List String → Option (List (Option SArtist))) :
    List (List String) → List (String × List String) →
    List (List String) × Option (List (String × List String))
  | [], m => ([], some m)
  | c :: cs, m =>
    match fetchA c with
    | none => ([c], none)
    | some resp =>
      let (tr, r) := gagGo fetchA cs (gagChunk m resp)
      (c :: tr, r)

/-- `Client.get_artists_genres` (spotify_api.py 431-440): 50-sized chunks of
the artist ids, one bulk call per chunk, a dict from artist id to genres. -/
def getArtistsGenres (fetchA : List String → Option (List (Option SArtist)))
    (ids : List String) : List (List String) × Option (List (String × List String)) :=
  gagGo fetchA (chunksOf 50 ids) []

/-! ## PlaylistLibrarian (server.py 570-669) -/

/-- A playlist as the librarian reads it. -/
structure SPlaylist where
  id : String
  name : String
  ownerId : String
deriving DecidableEq, Repr

/-- One proposed/applied rename (server.py 643-649). -/
structure LibChange where
  playlistId : String
  originalName : String
  newName : String
  category : String
  applied : Bool
deriving DecidableEq, Repr

/-- A collaborator call made by the librarian. -/
inductive LCall where
  | getAllPlaylists
  | currentUser
  | getTracks (pid : String)
  | tracksArtists (ids : List String)
  | artistsGenres (ids : List String)
  | rename (pid : String) (nm : String)
deriving DecidableEq, Repr

/-- The collaborator as the librarian consumes it.  A playlist-track entry is
`Option (Option String)`: a falsy item, or an item with an absent or present
id (the code reads nothing but `t['id']`). -/
structure LibEnv where
  allPlaylists : Option (List SPlaylist)
  userId : Option String
  playlistTracks : String → Option (List (Option (Option String)))
  artistsForTracks : List String → Option (List String)
  artistsGenres : List String → Option (List (String × List String))

/-- The librarian's running state over the playlist loop. -/
structure LibState where
  changes : List LibChange
  counts : List (String × Nat)
  skipped : Nat
  trace : List LCall
deriving DecidableEq, Repr

/-- The new playlist name (server.py 637-641).  Every fixed category label
has exactly two whitespace tokens, so the `split()[1]` read is modelled with
a default that is never used on the fixed taxonomy. -/
def libNewName (style cat nm : String) : String :=
  if style = "emoji" then cat ++ "/" ++ nm
  else "[" ++ ((splitWS cat).getD 1 "") ++ "] " ++ nm

/-- The truthiness filter on playlist track entries (server.py 605):
`[t['id'] for t in tracks if t and t.get('id')]`. -/
def entryId (e : Option (Option String)) : Option String :=
  match e with
  | some (some s) => if s = "" then none else some s
  | _ => none

/-- One playlist of the librarian loop (server.py 585-659), as the delta it
contributes: the proposed change (if any), the collaborator calls it issues,
and whether it is counted skipped.  The loop body never reads the
accumulated state, it only appends to it.  Exceptions of the per-playlist
collaborator calls are caught and the playlist skipped.
`change_playlist_details` swallows its own exceptions inside the client
(spotify_api.py 324-328), so a rename never fails from the server's point of
view and `applied` stays `not dry_run`. -/
def librarianDelta (env : LibEnv) (dryRun : Bool) (style : String) (p : SPlaylist) :
    Option LibChange × List LCall × Nat :=
  if GENRE_CATEGORIES.any (fun c => startsWithStr c.1 p.name) then (none, [], 1)
  else
    match env.playlistTracks p.id with
    | none => (none, [.getTracks p.id], 1)
    | some entries =>
      let tracks := entries.take 30
      if tracks.isEmpty then (none, [.getTracks p.id], 1)
      else
        let trackIds := tracks.filterMap entryId
        if trackIds.isEmpty then (none, [.getTracks p.id], 1)
        else
          match env.artistsForTracks trackIds with
          | none => (none, [.getTracks p.id, .tracksArtists trackIds], 1)
          | some artistIds =>
            if artistIds.isEmpty then (none, [.getTracks p.id, .tracksArtists trackIds], 1)
            else
              match env.artistsGenres artistIds with
              | none =>
                (none, [.getTracks p.id, .tracksArtists trackIds, .artistsGenres artistIds], 1)
              | some ag =>
                let allGenres := (ag.map Prod.snd).flatten
                let best := classify allGenres
                match best.1 with
                | some cat =>
                  if 0 < best.2 then
                    let newName := libNewName style cat p.name
                    (some ⟨p.id, p.name, newName, cat, !dryRun⟩,
                     [.getTracks p.id, .tracksArtists trackIds, .artistsGenres artistIds] ++
                       (if dryRun then [] else [.rename p.id newName]),
                     0)
                  else
                    (none,
                     [.getTracks p.id, .tracksArtists trackIds, .artistsGenres artistIds], 1)
                | none =>
                  (none,
                   [.getTracks p.id, .tracksArtists trackIds, .artistsGenres artistIds], 1)

/-- Folding one playlist's delta into the librarian state (server.py
581-659). -/
def librarianStep (env : LibEnv) (dryRun : Bool) (style : String)
    (st : LibState) (p : SPlaylist) : LibState :=
  match librarianDelta env dryRun style p with
  | (ch?, calls, sk) =>
    { changes := st.changes ++ ch?.toList,
      counts := match ch? with
        | none => st.counts
        | some ch => abump st.counts ch.category,
      skipped := st.skipped + sk,
      trace := st.trace ++ calls }

/-- The librarian's returned summary (server.py 661-668). -/
structure LibResult where
  analyzed : Nat
  categorized : Nat
  skippedCount : Nat
  dryRun : Bool
  changes : List LibChange
deriving DecidableEq, Repr

/-- The PlaylistLibrarian pipeline (server.py 570-669): fetch all playlists
and the current user id, keep only the playlists owned by the current user,
and run the categorisation loop over them. -/
def playlistLibrarian (env : LibEnv) (dryRun : Bool) (style : String) :
    Except String LibResult × List LCall :=
  match env.allPlaylists with
  | none => (.error "Spotify Client error", [.getAllPlaylists])
  | some ps =>
    match env.userId with
    | none => (.error "Spotify Client error", [.getAllPlaylists, .currentUser])
    | some uid =>
      let owned := ps.filter (fun p => p.ownerId = uid)
      let init : LibState := ⟨[], GENRE_CATEGORIES.map (fun c => (c.1, 0)), 0, []⟩
      let fin := owned.foldl (librarianStep env dryRun style) init
      (.ok ⟨owned.length, fin.changes.length, fin.skipped, dryRun, fin.changes⟩,
       [.getAllPlaylists, .currentUser] ++ fin.trace)

/-! ## MyTopMusic (server.py 671-764) -/

/-- A collaborator call made by MyTopMusic. -/
inductive TCall where
  | topTracks (tr : String) (n : Nat)
  | topArtists (tr : String) (n : Nat)
  | createPlaylist (nm : String)
  | addTracks (pid : String) (ids : List String)
deriving DecidableEq, Repr

/-- The collaborator as MyTopMusic consumes it; `monthYear` abstracts the
wall-clock `datetime.now().strftime("%b %Y")`. -/
structure TopEnv where
  topTracks : String → Nat → Option (List STrack)
  topArtists : String → Nat → Option (List SArtist)
  createPlaylist : String → Option String
  monthYear : String

/-- The MyTopMusic arguments (server.py 673-675); `topCount` is capped at 50
by the pipeline. -/
structure TopArgs where
  timeRange : String
  topCount : Nat
  createPlaylist : Bool
deriving DecidableEq, Repr

/-- A ranked track display row (server.py 699-704). -/
structure TrackRank where
  rank : Nat
  name : String
  artist : String
  id : String
deriving DecidableEq, Repr

/-- A ranked artist display row (server.py 712-716). -/
structure ArtistRank where
  rank : Nat
  name : String
  genres : List String
deriving DecidableEq, Repr

/-- The MyTopMusic result as far as the claims concern it.
`durationTenthsOfHour` carries `round(ms / 3600000, 1)` scaled by ten. -/
structure TopResult where
  timeRange : String
  topTracks : List TrackRank
  topArtists : List ArtistRank
  genreBreakdown : List (String × Nat)
  durationTenthsOfHour : Int
  recapPlaylist : Option String
deriving DecidableEq, Repr

/-- Round-half-even of `num / den` for `den > 0`, modelling Python's
`round` on the exact ratio (CPython evaluates the ratio in binary floating
point first; no claim depends on the tie cases where that could differ). -/
def roundHalfEven (num : Int) (den : Int) : Int :=
  let q := num.ediv den
  let r := num.emod den
  if 2 * r < den then q
  else if den < 2 * r then q + 1
  else if q % 2 = 0 then q else q + 1

/-- `round(c / total * 100)` on the exact ratio. -/
def pyRoundPct (c total : Nat) : Nat := (roundHalfEven (100 * c) total).toNat

/-- `genre.split()[0] if genre else "other"` (server.py 721): `none` models
the `IndexError` a whitespace-only tag would raise. -/
def firstTokenM (g : String) : Option String :=
  if g = "" then some "other" else (splitWS g).head?

/-- The ranked track rows (server.py 697-704): `none` models the
`IndexError` raised for a track with an empty artist list. -/
def displayTracks (ts : List STrack) : Option (List TrackRank) :=
  ts.enum.mapM (fun it =>
    (it.2.artists.head?).map (fun a => ⟨it.1 + 1, it.2.name, a.2, it.2.id⟩))

/-- The MyTopMusic pipeline (server.py 671-764): time-range validation first
(no collaborator call on failure), then the two fetches, the display and
genre-breakdown computations, and the optional recap-playlist creation. -/
def myTopMusic (env : TopEnv) (a : TopArgs) : Except String TopResult × List TCall :=
  let effCount := min a.topCount 50
  if ¬ (a.timeRange = "short_term" ∨ a.timeRange = "medium_term" ∨ a.timeRange = "long_term") then
    (.error ("Invalid time_range: " ++ a.timeRange ++
      ". Must be 'short_term', 'medium_term', or 'long_term'."), [])
  else
    match env.topTracks a.timeRange 50 with
    | none => (.error "Spotify Client error", [.topTracks a.timeRange 50])
    | some tracks =>
      match env.topArtists a.timeRange 50 with
      | none =>
        (.error "Spotify Client error", [.topTracks a.timeRange 50, .topArtists a.timeRange 50])
      | some artists =>
        let tr0 : List TCall := [.topTracks a.timeRange 50, .topArtists a.timeRange 50]
        match displayTracks (tracks.take effCount) with
        | none => (.error "Unexpected error", tr0)
        | some td =>
          let durMs := ((tracks.take effCount).map (fun t => t.durationMs.getD 0)).sum
          let ad := (artists.take effCount).enum.map
            (fun ia => ArtistRank.mk (ia.1 + 1) ia.2.name (ia.2.genres.take 3))
          let allGenres := ((artists.take effCount).map SArtist.genres).flatten
          match allGenres.mapM firstTokenM with
          | none => (.error "Unexpected error", tr0)
          | some toks =>
            let tally := toks.foldl abump []
            let total := max (tally.map Prod.snd).sum 1
            let breakdown := ((tally.mergeSort (fun x y => y.2 ≤ x.2)).take 5).map
              (fun gc => (gc.1, pyRoundPct gc.2 total))
            let hours := roundHalfEven durMs 360000
            if a.createPlaylist ∧ tracks ≠ [] then
              let nm := "My Top Tracks - " ++ env.monthYear
              match env.createPlaylist nm with
              | none => (.error "Spotify Client error", tr0 ++ [.createPlaylist nm])
              | some pid =>
                (.ok ⟨a.timeRange, td, ad, breakdown, hours, some pid⟩,
                 tr0 ++ [.createPlaylist nm, .addTracks pid ((tracks.take effCount).map STrack.id)])
            else (.ok ⟨a.timeRange, td, ad, breakdown, hours, none⟩, tr0)

/-! ## Concrete example data (used in example conjuncts and witnesses) -/

/-- A one-artist catalog track with the given id (also used as the name) and
popularity. -/
def cTrack (tid aid : String) (p : Int) : STrack := ⟨tid, tid, [(aid, aid)], some p, none⟩

/-- Two deep-dive tracks with the same lower-cased name and equal popularity
(an exact tie). -/
def c1A : DTrack := ⟨"idA", "Song", 10, "2001", "album", "X"⟩

/-- See `c1A`; this one comes second in the input. -/
def c1B : DTrack := ⟨"idB", "song", 10, "2000", "album", "Y"⟩

/-- Twenty genre-search results, four of them from artist `A1` (the spec's
end-to-end per-artist-cap example). -/
def c4Tracks : List STrack :=
  [cTrack "s01" "A1" 10, cTrack "s02" "A1" 20, cTrack "s03" "A1" 30, cTrack "s04" "A1" 40,
   cTrack "s05" "B01" 50, cTrack "s06" "B02" 50, cTrack "s07" "B03" 50, cTrack "s08" "B04" 50,
   cTrack "s09" "B05" 50, cTrack "s10" "B06" 50, cTrack "s11" "B07" 50, cTrack "s12" "B08" 50,
   cTrack "s13" "B09" 50, cTrack "s14" "B10" 50, cTrack "s15" "B11" 50, cTrack "s16" "B12" 50,
   cTrack "s17" "B13" 50, cTrack "s18" "B14" 50, cTrack "s19" "B15" 50, cTrack "s20" "B16" 50]

/-- Four genre-search tracks whose first artist id is the empty string,
which Python truthiness exempts from the per-artist cap and counter. -/
def c4EmptyTracks : List STrack :=
  [cTrack "e1" "" 10, cTrack "e2" "" 20, cTrack "e3" "" 30, cTrack "e4" "" 40]

/-- A top-tracks fetch returning three fresh tracks by artist `A1`. -/
def c4TopFetch : String → Option (List STrack) :=
  fun _ => some [cTrack "u1" "A1" 5, cTrack "u2" "A1" 6, cTrack "u3" "A1" 7]

/-- A similar top artist with id `A1` matching the seed genre. -/
def c4SimArtist : SArtist := ⟨"A1", "A1", ["indie rock"]⟩

/-- Two Discover candidates by one artist at equal popularity distance from
seed popularity 20. -/
def c3A : Cand := ⟨"x1", "x1", "ar", some "ar", 10, "g"⟩

/-- See `c3A`. -/
def c3B : Cand := ⟨"x2", "x2", "ar", some "ar", 30, "g"⟩

/-- A Discover environment for a successful listening-history run with one
candidate and one excluded id. -/
def c5Env : DiscEnv :=
  { searchArtist := fun _ => none
    getArtist := fun _ => none
    getTrack := fun _ => none
    topArtists := fun _ n => if n = 10 then some [⟨"a", "A", ["g"]⟩] else none
    recentIds := some ["x"]
    savedIds := some []
    searchGenre := fun _ _ => some [cTrack "c1" "a1" 10]
    artistTopTracks := fun _ => none
    createPlaylist := fun _ => none }

/-- The Discover arguments of the `c5Env` run. -/
def c5Args : DiscArgs := ⟨"listening_history", none, "2015-2025", 30, false⟩

/-- The single candidate the `c5Env` run accepts. -/
def c5Rec : Cand := ⟨"c1", "c1", "a1", some "a1", 10, "g"⟩

/-- A small discography: two tracks with the same lower-cased name and one
other track. -/
def c6Tracks : List DTrack :=
  [⟨"i1", "Song", 10, "2001", "album", "X"⟩, ⟨"i2", "song", 10, "2000", "album", "Y"⟩,
   ⟨"i3", "Other", 50, "1999", "single", "Z"⟩]

/-- A track whose popularity field is absent. -/
def c7NoPop : STrack := ⟨"t7", "n7", [("a7", "a7")], none, none⟩

/-- A track with the given (possibly out-of-range) popularity. -/
def c7Track (p : Int) : STrack := ⟨"t9", "n9", [("a9", "a9")], some p, none⟩

/-- A track fetch where every track has primary artist `a1`. -/
def c8Fetch : List String → Option (List (Option STrack)) :=
  fun ids => some (ids.map (fun i => some ⟨i, i, [("a1", "ArtistOne")], some 10, none⟩))

/-- A Discover environment where every collaborator call raises. -/
def c9DEnv : DiscEnv :=
  ⟨fun _ => none, fun _ => none, fun _ => none, fun _ _ => none, none, none,
   fun _ _ => none, fun _ => none, fun _ => none⟩

/-- A MyTopMusic environment where every collaborator call raises. -/
def c9TEnv : TopEnv := ⟨fun _ _ => none, fun _ _ => none, fun _ => none, "Jan 2026"⟩

/-- A playlist owned by the current user `me`. -/
def c10Mine : SPlaylist := ⟨"p1", "Mine", "me"⟩

/-- A playlist owned by a different user. -/
def c10Other : SPlaylist := ⟨"p2", "Their Jams", "someone"⟩

/-- A librarian environment with one owned and one foreign playlist. -/
def c10Env : LibEnv :=
  ⟨some [c10Mine, c10Other], some "me", fun _ => none, fun _ => none, fun _ => none⟩

/-- The ArtistDeepDive collection of one album track (server.py 499-506):
the stored popularity comes from the full-track fetch via
`full_track.get('popularity', 0)` with no clamping. -/
def collectTrack (releaseDate albumType albumName tid tname : String)
    (fullPop : Option Int) : DTrack :=
  ⟨tid, tname, candPop fullPop, releaseDate, albumType, albumName⟩

/-- A Discover environment whose track fetch returns the popularity-less
`c7NoPop` and whose artist fetch succeeds. -/
def c7Env : DiscEnv :=
  ⟨fun _ => none, fun _ => some ⟨"a7", "A7", ["g7"]⟩, fun _ => some c7NoPop,
   fun _ _ => none, none, none, fun _ _ => none, fun _ => none, fun _ => none⟩

/-- Track-seed Discover arguments against `c7Env`. -/
def c7Args : DiscArgs := ⟨"track", some "t7", "2015-2025", 30, false⟩

/-! ## Generic helper lemmas -/

theorem foldl_preserve {α β : Type} {P : β → Prop} {f : β → α → β}
    (h : ∀ s x, P s → P (f s x)) : ∀ (l : List α) {s}, P s → P (l.foldl f s) := by
  intro l
  induction l with
  | nil => intro s hs; exact hs
  | cons x xs ih => intro s hs; exact ih (h s x hs)

theorem foldl_preserve_mem {α β : Type} {P : β → Prop} {f : β → α → β} :
    ∀ (l : List α), (∀ s x, x ∈ l → P s → P (f s x)) → ∀ {s}, P s → P (l.foldl f s) := by
  intro l
  induction l with
  | nil => intro _ s hs; exact hs
  | cons x xs ih =>
    intro h s hs
    exact ih (fun s' y hy => h s' y (List.mem_cons_of_mem x hy)) (h s x (List.mem_cons_self x xs) hs)

theorem alookup_append {β : Type} (k : String) (m1 m2 : List (String × β)) :
    alookup k (m1 ++ m2) =
      match alookup k m1 with
      | some v => some v
      | none => alookup k m2 := by
  induction m1 with
  | nil => simp [alookup]
  | cons p m ih =>
    obtain ⟨k', v⟩ := p
    by_cases h : k' = k <;> simp [alookup, h, ih]

theorem alookup_aupsert_self {β : Type} (m : List (String × β)) (k : String) (v : β) :
    alookup k (aupsert m k v) = some v := by
  induction m with
  | nil => simp [aupsert, alookup]
  | cons p m ih =>
    obtain ⟨k', v'⟩ := p
    by_cases h : k' = k <;> simp [aupsert, alookup, h, ih]

theorem alookup_aupsert_ne {β : Type} (m : List (String × β)) {k k' : String} (v : β)
    (h : k' ≠ k) : alookup k' (aupsert m k v) = alookup k' m := by
  induction m with
  | nil => simp [aupsert, alookup, Ne.symm h]
  | cons p m ih =>
    obtain ⟨k0, v0⟩ := p
    by_cases h0 : k0 = k
    · subst h0
      simp [aupsert, alookup, Ne.symm h]
    · simp [aupsert, alookup, h0, ih]

theorem mem_aupsert {β : Type} (m : List (String × β)) (k : String) (v : β) :
    ∀ p ∈ aupsert m k v, p ∈ m ∨ p = (k, v) := by
  induction m with
  | nil => simp [aupsert]
  | cons q m ih =>
    obtain ⟨k0, v0⟩ := q
    intro p hp
    by_cases h0 : k0 = k
    · simp only [aupsert, if_pos h0] at hp
      rcases List.mem_cons.mp hp with h | h
      · right; exact h
      · left; exact List.mem_cons_of_mem _ h
    · simp only [aupsert, if_neg h0] at hp
      rcases List.mem_cons.mp hp with h | h
      · left; exact h ▸ List.mem_cons_self _ _
      · rcases ih p h with h' | h'
        · left; exact List.mem_cons_of_mem _ h'
        · right; exact h'

theorem keys_aupsert_of_mem {β : Type} (m : List (String × β)) (k : String) (v : β)
    (h : alookup k m ≠ none) : (aupsert m k v).map Prod.fst = m.map Prod.fst := by
  induction m with
  | nil => simp [alookup] at h
  | cons q m ih =>
    obtain ⟨k0, v0⟩ := q
    by_cases h0 : k0 = k
    · simp [aupsert, h0]
    · simp only [alookup, if_neg h0] at h
      simp [aupsert, h0, ih h]

theorem alookup_eq_none_iff {β : Type} (k : String) (m : List (String × β)) :
    alookup k m = none ↔ k ∉ m.map Prod.fst := by
  induction m with
  | nil => simp [alookup]
  | cons q m ih =>
    obtain ⟨k0, v0⟩ := q
    by_cases h0 : k0 = k <;> simp [alookup, h0, ih] <;> tauto

theorem alookup_of_mem_nodup {β : Type} {m : List (String × β)} {k : String} {v : β}
    (hn : (m.map Prod.fst).Nodup) (h : (k, v) ∈ m) : alookup k m = some v := by
  induction m with
  | nil => simp at h
  | cons q m ih =>
    obtain ⟨k0, v0⟩ := q
    simp only [List.map_cons, List.nodup_cons] at hn
    rcases List.mem_cons.mp h with h1 | h1
    · injection h1 with hk hv
      subst hk
      subst hv
      simp [alookup]
    · have hne : k0 ≠ k := by
        intro hkk
        subst hkk
        exact hn.1 (List.mem_map.mpr ⟨(k0, v), h1, rfl⟩)
      simp [alookup, hne, ih hn.2 h1]

theorem alookup_some_mem {β : Type} {k : String} {v : β} :
    ∀ {m : List (String × β)}, alookup k m = some v → (k, v) ∈ m := by
  intro m
  induction m with
  | nil => simp [alookup]
  | cons q m ih =>
    obtain ⟨k0, v0⟩ := q
    by_cases h0 : k0 = k
    · subst h0
      intro h
      simp [alookup] at h
      subst h
      exact List.mem_cons_self _ _
    · simp only [alookup, if_neg h0]
      intro h
      exact List.mem_cons_of_mem _ (ih h)

theorem acount_abump_self (m : List (String × Nat)) (k : String) :
    acount (abump m k) k = acount m k + 1 := by
  simp [acount, abump, alookup_aupsert_self]

theorem acount_abump_ne (m : List (String × Nat)) {k k' : String} (h : k' ≠ k) :
    acount (abump m k) k' = acount m k' := by
  simp [acount, abump, alookup_aupsert_ne _ _ h]

/-! ## Deduplication lemmas (claim C1) -/

theorem foldl_best1_props : ∀ (l : List DTrack) (b : DTrack),
    ∃ r, l.foldl best1 (some b) = some r ∧ (r = b ∨ r ∈ l) ∧ b.popularity ≤ r.popularity ∧
      (∀ x ∈ l, x.popularity ≤ r.popularity) ∧
      (b :: l).find? (fun t => decide (r.popularity ≤ t.popularity)) = some r := by
  intro l
  induction l with
  | nil =>
    intro b
    refine ⟨b, rfl, Or.inl rfl, le_refl _, by simp, ?_⟩
    simp [List.find?]
  | cons t ts ih =>
    intro b
    by_cases hbt : b.popularity < t.popularity
    · obtain ⟨r, hr, hmem, hble, hub, hfind⟩ := ih t
      refine ⟨r, ?_, ?_, ?_, ?_, ?_⟩
      · simpa [best1, hbt] using hr
      · rcases hmem with h | h
        · exact Or.inr (h ▸ List.mem_cons_self _ _)
        · exact Or.inr (List.mem_cons_of_mem _ h)
      · exact le_of_lt (lt_of_lt_of_le hbt hble)
      · intro x hx
        rcases List.mem_cons.mp hx with h | h
        · exact h ▸ hble
        · exact hub x h
      · have hpb : decide (r.popularity ≤ b.popularity) = false := by
          simp only [decide_eq_false_iff_not, not_le]
          exact lt_of_lt_of_le hbt hble
        rw [List.find?]
        rw [hpb]
        exact hfind
    · obtain ⟨r, hr, hmem, hble, hub, hfind⟩ := ih b
      have htb : t.popularity ≤ b.popularity := le_of_not_lt hbt
      refine ⟨r, ?_, ?_, ?_, ?_, ?_⟩
      · simpa [best1, hbt] using hr
      · rcases hmem with h | h
        · exact Or.inl h
        · exact Or.inr (List.mem_cons_of_mem _ h)
      · exact hble
      · intro x hx
        rcases List.mem_cons.mp hx with h | h
        · exact h ▸ le_trans htb hble
        · exact hub x h
      · by_cases hpb : decide (r.popularity ≤ b.popularity) = true
        · have : r = b := by
            rw [List.find?, hpb] at hfind
            exact (Option.some.injEq .. ▸ hfind.symm)
          subst this
          rw [List.find?, hpb]
        · have hpb' : decide (r.popularity ≤ b.popularity) = false := by
            simpa using hpb
          have htail : ts.find? (fun t' => decide (r.popularity ≤ t'.popularity)) = some r := by
            rw [List.find?, hpb'] at hfind
            exact hfind
          have hpt : decide (r.popularity ≤ t.popularity) = false := by
            simp only [decide_eq_false_iff_not, not_le]
            have hbr : b.popularity < r.popularity := by
              rcases lt_or_eq_of_le hble with h | h
              · exact h
              · exfalso
                apply hpb
                simp [← h]
            exact lt_of_le_of_lt htb hbr
          rw [List.find?, hpb']
          rw [List.find?, hpt]
          exact htail

theorem foldl_best1_none_eq : ∀ {l : List DTrack} {r : DTrack}, l.foldl best1 none = some r →
    r ∈ l ∧ (∀ x ∈ l, x.popularity ≤ r.popularity) ∧
      l.find? (fun t => decide (r.popularity ≤ t.popularity)) = some r := by
  intro l r h
  match l with
  | [] => simp [List.foldl] at h
  | t :: ts =>
    obtain ⟨r', hr', hmem, hble, hub, hfind⟩ := foldl_best1_props ts t
    have : r' = r := by
      have h1 : (t :: ts).foldl best1 none = ts.foldl best1 (some t) := by
        simp [List.foldl, best1]
      rw [h1, hr'] at h
      exact (Option.some.injEq .. ▸ h)
    subst this
    refine ⟨?_, ?_, hfind⟩
    · rcases hmem with h | h
      · exact h ▸ List.mem_cons_self _ _
      · exact List.mem_cons_of_mem _ h
    · intro x hx
      rcases List.mem_cons.mp hx with h | h
      · exact h ▸ hble
      · exact hub x h

theorem alookup_dedupeStep (m : List (String × DTrack)) (t : DTrack) (k : String) :
    alookup k (dedupeStep m t) =
      if lowKey t = k then best1 (alookup k m) t else alookup k m := by
  unfold dedupeStep
  by_cases hk : lowKey t = k
  · subst hk
    cases hm : alookup (lowKey t) m with
    | none =>
      simp only [if_pos rfl, hm]
      rw [alookup_append, hm]
      simp [alookup, best1]
    | some b =>
      simp only [if_pos rfl, hm]
      by_cases hp : b.popularity < t.popularity
      · rw [if_pos hp, alookup_aupsert_self]
        simp [best1, hp]
      · rw [if_neg hp, hm]
        simp [best1, hp]
  · rw [if_neg hk]
    cases hm : alookup (lowKey t) m with
    | none =>
      simp only
      rw [alookup_append]
      cases hm' : alookup k m with
      | none => simp [alookup, hk]
      | some v => simp
    | some b =>
      simp only
      by_cases hp : b.popularity < t.popularity
      · rw [if_pos hp]
        exact alookup_aupsert_ne m t (fun h => hk h.symm)
      · rw [if_neg hp]

theorem alookup_foldl_dedupe : ∀ (ts : List DTrack) (m : List (String × DTrack)) (k : String),
    alookup k (ts.foldl dedupeStep m) =
      (ts.filter (fun t => decide (lowKey t = k))).foldl best1 (alookup k m) := by
  intro ts
  induction ts with
  | nil => intro m k; rfl
  | cons t ts ih =>
    intro m k
    by_cases hk : lowKey t = k
    · have hf : (t :: ts).filter (fun t' => decide (lowKey t' = k)) =
        t :: ts.filter (fun t' => decide (lowKey t' = k)) := by
        simp [List.filter, hk]
      rw [hf]
      show alookup k (ts.foldl dedupeStep (dedupeStep m t)) = _
      rw [ih (dedupeStep m t) k, alookup_dedupeStep, if_pos hk]
      rfl
    · have hf : (t :: ts).filter (fun t' => decide (lowKey t' = k)) =
        ts.filter (fun t' => decide (lowKey t' = k)) := by
        simp [List.filter, hk]
      rw [hf]
      show alookup k (ts.foldl dedupeStep (dedupeStep m t)) = _
      rw [ih (dedupeStep m t) k, alookup_dedupeStep, if_neg hk]

theorem alookup_dedupeMap (ts : List DTrack) (k : String) :
    alookup k (dedupeMap ts) = (ts.filter (fun t => decide (lowKey t = k))).foldl best1 none := by
  unfold dedupeMap
  rw [alookup_foldl_dedupe]
  rfl

theorem dedupeMap_keys (ts : List DTrack) : ∀ p ∈ dedupeMap ts, lowKey p.2 = p.1 := by
  have hstep : ∀ (m : List (String × DTrack)) (t : DTrack),
      (∀ p ∈ m, lowKey p.2 = p.1) → ∀ p ∈ dedupeStep m t, lowKey p.2 = p.1 := by
    intro m t hm
    rcases hl : alookup (lowKey t) m with _ | b
    · have hd : dedupeStep m t = m ++ [(lowKey t, t)] := by
        unfold dedupeStep
        rw [hl]
      rw [hd]
      intro p hp
      rcases List.mem_append.mp hp with h | h
      · exact hm p h
      · rcases List.mem_singleton.mp h with h'
        subst h'
        rfl
    · by_cases hp : b.popularity < t.popularity
      · have hd : dedupeStep m t = aupsert m (lowKey t) t := by
          unfold dedupeStep
          rw [hl]
          simp [hp]
        rw [hd]
        intro p hmem
        rcases mem_aupsert m (lowKey t) t p hmem with h | h
        · exact hm p h
        · subst h; rfl
      · have hd : dedupeStep m t = m := by
          unfold dedupeStep
          rw [hl]
          simp [hp]
        rw [hd]
        exact hm
  exact foldl_preserve
    (P := fun (m : List (String × DTrack)) => ∀ p ∈ m, lowKey p.2 = p.1) hstep ts (by simp)

theorem dedupeMap_nodupKeys (ts : List DTrack) : ((dedupeMap ts).map Prod.fst).Nodup := by
  have hstep : ∀ (m : List (String × DTrack)) (t : DTrack),
      (m.map Prod.fst).Nodup → ((dedupeStep m t).map Prod.fst).Nodup := by
    intro m t hm
    rcases hl : alookup (lowKey t) m with _ | b
    · have hd : dedupeStep m t = m ++ [(lowKey t, t)] := by
        unfold dedupeStep
        rw [hl]
      rw [hd]
      have hnk : lowKey t ∉ m.map Prod.fst := (alookup_eq_none_iff _ m).mp hl
      simp only [List.map_append, List.map_cons, List.map_nil]
      simp [List.nodup_append, hm, hnk]
    · by_cases hp : b.popularity < t.popularity
      · have hd : dedupeStep m t = aupsert m (lowKey t) t := by
          unfold dedupeStep
          rw [hl]
          simp [hp]
        rw [hd]
        rw [keys_aupsert_of_mem m (lowKey t) t (by rw [hl]; exact fun h => Option.noConfusion h)]
        exact hm
      · have hd : dedupeStep m t = m := by
          unfold dedupeStep
          rw [hl]
          simp [hp]
        rw [hd]
        exact hm
  exact foldl_preserve
    (P := fun (m : List (String × DTrack)) => (m.map Prod.fst).Nodup) hstep ts (by simp)

theorem mem_dedupe_lookup {ts : List DTrack} {e : DTrack} (h : e ∈ dedupe ts) :
    alookup (lowKey e) (dedupeMap ts) = some e := by
  obtain ⟨p, hp, hpe⟩ := List.mem_map.mp h
  subst hpe
  have hk : lowKey p.2 = p.1 := dedupeMap_keys ts p hp
  rw [hk]
  exact alookup_of_mem_nodup (dedupeMap_nodupKeys ts) (by
    obtain ⟨k, v⟩ := p
    exact hp)

theorem mem_dedupe_char {ts : List DTrack} {e : DTrack} (h : e ∈ dedupe ts) :
    e ∈ ts ∧ (∀ x ∈ ts, lowKey x = lowKey e → x.popularity ≤ e.popularity) ∧
      (ts.filter (fun t => decide (lowKey t = lowKey e))).find?
        (fun t => decide (e.popularity ≤ t.popularity)) = some e := by
  have hl := mem_dedupe_lookup h
  rw [alookup_dedupeMap] at hl
  obtain ⟨hmem, hub, hfind⟩ := foldl_best1_none_eq hl
  refine ⟨(List.mem_filter.mp hmem).1, ?_, hfind⟩
  intro x hx hkx
  exact hub x (List.mem_filter.mpr ⟨hx, by simp [hkx]⟩)

/-! ## Claim C1 -/

/-- C1: for every input track sequence, the ArtistDeepDive deduplication
produces exactly one representative per distinct lower-cased track name
(the output's keys are duplicate-free and cover exactly the input's keys);
the kept representative's popularity is greater than or equal to every
same-keyed input track's popularity; and the kept representative is the
first input track of its key group attaining that maximal popularity, so on
an exact popularity tie the earlier track wins (single left-to-right scan
updating a key-to-best map). -/
theorem claimC1_dedupe_one_best_first (ts : List DTrack) :
    ((dedupe ts).map lowKey).Nodup ∧
    (∀ k, (∃ e ∈ dedupe ts, lowKey e = k) ↔ (∃ t ∈ ts, lowKey t = k)) ∧
    (∀ e ∈ dedupe ts, ∀ t ∈ ts, lowKey t = lowKey e → t.popularity ≤ e.popularity) ∧
    (∀ e ∈ dedupe ts, (ts.filter (fun t => decide (lowKey t = lowKey e))).find?
        (fun t => decide (e.popularity ≤ t.popularity)) = some e) := by
  refine ⟨?_, ?_, ?_, ?_⟩
  · have h1 : (dedupe ts).map lowKey = (dedupeMap ts).map Prod.fst := by
      unfold dedupe
      rw [List.map_map]
      exact List.map_congr_left (fun p hp => dedupeMap_keys ts p hp)
    rw [h1]
    exact dedupeMap_nodupKeys ts
  · intro k
    constructor
    · rintro ⟨e, he, hk⟩
      exact ⟨e, (mem_dedupe_char he).1, hk⟩
    · rintro ⟨t, ht, hk⟩
      have hmemf : t ∈ ts.filter (fun t' => decide (lowKey t' = k)) :=
        List.mem_filter.mpr ⟨ht, by simp [hk]⟩
      cases hfl : ts.filter (fun t' => decide (lowKey t' = k)) with
      | nil => rw [hfl] at hmemf; simp at hmemf
      | cons x xs =>
        obtain ⟨r, hr, _, _, _, _⟩ := foldl_best1_props xs x
        have hlk : alookup k (dedupeMap ts) = some r := by
          rw [alookup_dedupeMap, hfl]
          have hcons : (x :: xs).foldl best1 none = xs.foldl best1 (some x) := by
            simp [List.foldl, best1]
          rw [hcons, hr]
        have hpm := alookup_some_mem hlk
        exact ⟨r, List.mem_map.mpr ⟨(k, r), hpm, rfl⟩, dedupeMap_keys ts (k, r) hpm⟩
  · intro e he t ht hk
    exact (mem_dedupe_char he).2.1 t ht hk
  · intro e he
    exact (mem_dedupe_char he).2.2

/-- Witness for C1 at a concrete two-track input with an exact popularity
tie on the shared lower-cased name: the first track is kept. -/
theorem claimC1_witness :
    dedupe [c1A, c1B] = [c1A] ∧
    ([c1A, c1B].filter (fun t => decide (lowKey t = lowKey c1A))).find?
        (fun t => decide (c1A.popularity ≤ t.popularity)) = some c1A :=
  ⟨by decide, (claimC1_dedupe_one_best_first [c1A, c1B]).2.2.2 c1A (by decide)⟩

/-! ## Claim C2 -/

theorem classifyFold_snd (tags : List String) :
    ∀ (cats : List (String × List String)) (init : Option String × Nat),
      (classifyFold tags cats init).2 = max init.2 (maxScore tags cats) := by
  intro cats
  induction cats with
  | nil => intro init; simp [classifyFold, maxScore]
  | cons c cats ih =>
    intro init
    have hstep : classifyFold tags (c :: cats) init =
        classifyFold tags cats
          (if init.2 < catScore tags c.2 then (some c.1, catScore tags c.2) else init) := by
      simp only [classifyFold, List.foldl]
    rw [hstep, ih]
    by_cases h : init.2 < catScore tags c.2
    · simp only [if_pos h]
      show max (catScore tags c.2) (maxScore tags cats) =
        max init.2 (maxScore tags (c :: cats))
      simp only [maxScore, List.foldr]
      omega
    · simp only [if_neg h]
      show max init.2 (maxScore tags cats) = max init.2 (maxScore tags (c :: cats))
      simp only [maxScore, List.foldr]
      omega

theorem classifyFold_of_le (tags : List String) :
    ∀ (cats : List (String × List String)) (init : Option String × Nat),
      maxScore tags cats ≤ init.2 → classifyFold tags cats init = init := by
  intro cats
  induction cats with
  | nil => intro init _; rfl
  | cons c cats ih =>
    intro init hle
    simp only [maxScore, List.foldr] at hle
    have hstep : classifyFold tags (c :: cats) init =
        classifyFold tags cats
          (if init.2 < catScore tags c.2 then (some c.1, catScore tags c.2) else init) := by
      simp only [classifyFold, List.foldl]
    rw [hstep, if_neg (by omega)]
    exact ih init (by
      show maxScore tags cats ≤ init.2
      simp only [maxScore] at *
      omega)

theorem classifyFold_first_max (tags : List String) :
    ∀ (cats : List (String × List String)) (init : Option String × Nat),
      init.2 < maxScore tags cats →
      ∃ c, cats.find? (fun c' => decide (catScore tags c'.2 = maxScore tags cats)) = some c ∧
        classifyFold tags cats init = (some c.1, maxScore tags cats) := by
  intro cats
  induction cats with
  | nil => intro init h; simp [maxScore] at h
  | cons c cats ih =>
    intro init hlt
    have hM : maxScore tags (c :: cats) = max (catScore tags c.2) (maxScore tags cats) := by
      simp [maxScore, List.foldr]
    have hstep : classifyFold tags (c :: cats) init =
        classifyFold tags cats
          (if init.2 < catScore tags c.2 then (some c.1, catScore tags c.2) else init) := by
      simp only [classifyFold, List.foldl]
    by_cases hs : catScore tags c.2 = maxScore tags (c :: cats)
    · refine ⟨c, ?_, ?_⟩
      · rw [List.find?]
        simp [hs]
      · rw [hstep]
        have hup : init.2 < catScore tags c.2 := by
          rw [hs]
          exact hM ▸ hlt
        rw [if_pos hup]
        have hrest : maxScore tags cats ≤ catScore tags c.2 := by
          rw [hs, hM]
          omega
        rw [classifyFold_of_le tags cats _ hrest]
        rw [hs]
    · have hclt : catScore tags c.2 < maxScore tags (c :: cats) := by
        rw [hM] at *
        omega
      have hrest : maxScore tags cats = maxScore tags (c :: cats) := by
        rw [hM] at *
        omega
      have hfind : (c :: cats).find?
          (fun c' => decide (catScore tags c'.2 = maxScore tags (c :: cats))) =
          cats.find? (fun c' => decide (catScore tags c'.2 = maxScore tags (c :: cats))) := by
        rw [List.find?]
        simp [hs]
      rw [hstep]
      by_cases h1 : init.2 < catScore tags c.2
      · rw [if_pos h1]
        obtain ⟨c', hc'1, hc'2⟩ := ih (some c.1, catScore tags c.2) (by
          show catScore tags c.2 < maxScore tags cats
          omega)
        refine ⟨c', ?_, ?_⟩
        · rw [hfind, ← hrest]
          exact hc'1
        · rw [hc'2, hrest]
      · rw [if_neg h1]
        obtain ⟨c', hc'1, hc'2⟩ := ih init (by
          show init.2 < maxScore tags cats
          omega)
        refine ⟨c', ?_, ?_⟩
        · rw [hfind, ← hrest]
          exact hc'1
        · rw [hc'2, hrest]

/-- C2: for every tag list, the classifier's returned score is the maximum
over the fixed 10-category taxonomy of the per-category score (the number of
tags some keyword of the category is a substring of, lower-cased, one count
per tag); the returned category is the first category in taxonomy order
attaining that maximum (a later equal score does not overwrite); a maximum
of 0 yields no category; and the empty tag list yields `(none, 0)`. -/
theorem claimC2_classifier_first_max (tags : List String) :
    (classify tags).2 = maxScore tags GENRE_CATEGORIES ∧
    ((classify tags).2 = 0 → (classify tags).1 = none) ∧
    (0 < (classify tags).2 →
      ∃ c, GENRE_CATEGORIES.find?
          (fun c' => decide (catScore tags c'.2 = maxScore tags GENRE_CATEGORIES)) = some c ∧
        (classify tags).1 = some c.1) ∧
    classify [] = (none, (0 : Nat)) := by
  have hsnd : (classify tags).2 = maxScore tags GENRE_CATEGORIES := by
    unfold classify
    rw [classifyFold_snd]
    simp
  refine ⟨hsnd, ?_, ?_, ?_⟩
  · intro h0
    rw [hsnd] at h0
    unfold classify
    rw [classifyFold_of_le tags GENRE_CATEGORIES (none, 0) (by omega)]
  · intro hpos
    rw [hsnd] at hpos
    obtain ⟨c, hf, he⟩ := classifyFold_first_max tags GENRE_CATEGORIES (none, 0) hpos
    exact ⟨c, hf, by unfold classify; rw [he]⟩
  · decide

/-- Witness for C2 at the tag list `["indie pop"]`: the score is positive
and the returned category is the first maximal-scoring one. -/
theorem claimC2_witness :
    0 < (classify ["indie pop"]).2 ∧
    ∃ c, GENRE_CATEGORIES.find?
        (fun c' => decide (catScore ["indie pop"] c'.2 =
          maxScore ["indie pop"] GENRE_CATEGORIES)) = some c ∧
      (classify ["indie pop"]).1 = some c.1 :=
  ⟨by decide, (claimC2_classifier_first_max ["indie pop"]).2.2.1 (by decide)⟩

/-! ## Claim C4 -/

theorem stage3Track_inv (ex : List String) (g : String) (st : GenState) (t : STrack)
    (h : ∀ aid, aid ≠ "" →
      st.recs.countP (fun c => decide (c.artistId = some aid)) = acount st.counts aid ∧
      acount st.counts aid ≤ 3) :
    ∀ aid, aid ≠ "" →
      (stage3Track ex g st t).recs.countP (fun c => decide (c.artistId = some aid)) =
        acount (stage3Track ex g st t).counts aid ∧
      acount (stage3Track ex g st t).counts aid ≤ 3 := by
  intro aid haid
  unfold stage3Track
  by_cases h1 : t.id ∈ st.seen ∨ t.id ∈ ex
  · rw [if_pos h1]
    exact h aid haid
  · rw [if_neg h1]
    by_cases h2 : (t.artists.head?.map Prod.fst).any
        (fun a => ¬ a = "" ∧ 3 ≤ acount st.counts a) = true
    · rw [if_pos h2]
      exact h aid haid
    · rw [if_neg h2]
      cases ha : t.artists.head? with
      | none =>
        have hrecs : (stage3Accept g st t).recs.countP (fun c => decide (c.artistId = some aid)) =
            st.recs.countP (fun c => decide (c.artistId = some aid)) := by
          simp [stage3Accept, ha, List.countP_append, List.countP_cons]
        have hcounts : (stage3Accept g st t).counts = st.counts := by
          simp [stage3Accept, ha]
        rw [hrecs, hcounts]
        exact h aid haid
      | some pr =>
        by_cases hpr : pr.1 = ""
        · have hrecs : (stage3Accept g st t).recs.countP
              (fun c => decide (c.artistId = some aid)) =
              st.recs.countP (fun c => decide (c.artistId = some aid)) := by
            simp only [stage3Accept, ha, List.countP_append, List.countP_cons]
            simp [hpr]
            exact fun hh => haid (hh ▸ hpr ▸ rfl)
          have hcounts : (stage3Accept g st t).counts = st.counts := by
            simp [stage3Accept, ha, hpr]
          rw [hrecs, hcounts]
          exact h aid haid
        · have hcap : ¬ 3 ≤ acount st.counts pr.1 := by
            simp [ha, hpr] at h2
            omega
          have hcounts : (stage3Accept g st t).counts = abump st.counts pr.1 := by
            simp [stage3Accept, ha, hpr]
          by_cases haid2 : aid = pr.1
          · subst haid2
            have hrecs : (stage3Accept g st t).recs.countP
                (fun c => decide (c.artistId = some pr.1)) =
                st.recs.countP (fun c => decide (c.artistId = some pr.1)) + 1 := by
              simp [stage3Accept, ha, List.countP_append, List.countP_cons]
            rw [hrecs, hcounts, acount_abump_self, (h pr.1 haid).1]
            exact ⟨rfl, by have := (h pr.1 haid).2; omega⟩
          · have hrecs : (stage3Accept g st t).recs.countP
                (fun c => decide (c.artistId = some aid)) =
                st.recs.countP (fun c => decide (c.artistId = some aid)) := by
              simp only [stage3Accept, ha, List.countP_append, List.countP_cons]
              simp
              exact fun hh => haid2 hh.symm
            rw [hrecs, hcounts, acount_abump_ne st.counts haid2]
            exact h aid haid

theorem stage3_inv (ex : List String) (searched : List (String × Option (List STrack))) :
    ∀ aid, aid ≠ "" →
      (stage3 ex searched).recs.countP (fun c => decide (c.artistId = some aid)) =
        acount (stage3 ex searched).counts aid ∧
      acount (stage3 ex searched).counts aid ≤ 3 := by
  unfold stage3
  refine foldl_preserve
    (P := fun (st : GenState) => ∀ aid, aid ≠ "" →
      st.recs.countP (fun c => decide (c.artistId = some aid)) = acount st.counts aid ∧
        acount st.counts aid ≤ 3) ?_ searched ?_
  · intro st g hst
    obtain ⟨gname, gres⟩ := g
    unfold stage3Genre
    cases gres with
    | none => exact hst
    | some ts =>
      exact foldl_preserve
        (P := fun (st' : GenState) => ∀ aid, aid ≠ "" →
          st'.recs.countP (fun c => decide (c.artistId = some aid)) = acount st'.counts aid ∧
            acount st'.counts aid ≤ 3)
        (fun st' t h' => stage3Track_inv ex gname st' t h') ts hst
  · intro aid _
    simp [acount, alookup]

/-- Counterexample to C4: the per-artist cap is guarded by Python
truthiness (`if artist_id and ...`, server.py 855), so tracks whose first
artist id is the empty string are never capped (and never counted): a genre
search returning four tracks that all carry artist id `""` has all four
accepted, violating the claimed universal three-per-artist bound. -/
theorem claimC4_counterexample :
    (stage3 [] [("g", some c4EmptyTracks)]).recs.countP
      (fun c => decide (c.artistId = some "")) = 4 ∧
    ¬ (4 ≤ 3) := by
  exact ⟨by decide, by decide⟩

/-- C4 as amended: in every Discover invocation, the genre-driven
generation stage (whose accepted candidates are exactly the stage-3 output,
tagged with a seed genre rather than `"top_artist_match"`) accepts at most
three candidates per *non-empty* artist id, for every exclusion set and
every sequence of genre-search results — tracks with no artist entry or an
empty-string first-artist id are exempt from both the cap and the counter;
on the spec's end-to-end example of twenty genre-search tracks of which
four share the (non-empty) artist id `A1`, exactly three of those four are
accepted (nineteen accepted in total); and the similar-artist augmentation
stage applies no per-artist cap: the same artist then reaches six
candidates in the combined list. -/
theorem claimC4_amended_per_artist_cap :
    (∀ (ex : List String) (searched : List (String × Option (List STrack))) (aid : String),
      aid ≠ "" →
      (stage3 ex searched).recs.countP (fun c => decide (c.artistId = some aid)) ≤ 3) ∧
    (stage3 [] [("indie rock", some c4Tracks)]).recs.countP
      (fun c => decide (c.artistId = some "A1")) = 3 ∧
    (stage3 [] [("indie rock", some c4Tracks)]).recs.length = 19 ∧
    (stage4 [] c4TopFetch ["indie rock"] (some [c4SimArtist])
        (stage3 [] [("indie rock", some c4Tracks)])).recs.countP
      (fun c => decide (c.artistId = some "A1")) = 6 := by
  refine ⟨fun ex searched aid haid => ?_, by decide, by decide, by decide⟩
  have h := stage3_inv ex searched aid haid
  omega

/-- Witness for the amended C4 at the concrete non-empty artist id `A1`
over the spec's twenty-track example. -/
theorem claimC4_witness :
    ("A1" : String) ≠ "" ∧
    (stage3 [] [("indie rock", some c4Tracks)]).recs.countP
      (fun c => decide (c.artistId = some "A1")) ≤ 3 :=
  ⟨by decide,
   claimC4_amended_per_artist_cap.1 [] [("indie rock", some c4Tracks)] "A1" (by decide)⟩

/-! ## Claims C5 and C3: Discover pipeline lemmas -/

theorem stage3_excl (ex : List String) (searched : List (String × Option (List STrack))) :
    ∀ c ∈ (stage3 ex searched).recs, c.id ∉ ex := by
  unfold stage3
  refine foldl_preserve (P := fun (st : GenState) => ∀ c ∈ st.recs, c.id ∉ ex) ?_ searched
    (by simp)
  intro st g hst
  obtain ⟨gname, gres⟩ := g
  unfold stage3Genre
  cases gres with
  | none => exact hst
  | some ts =>
    refine foldl_preserve (P := fun (st' : GenState) => ∀ c ∈ st'.recs, c.id ∉ ex) ?_ ts hst
    intro st' t h'
    unfold stage3Track
    by_cases h1 : t.id ∈ st'.seen ∨ t.id ∈ ex
    · rw [if_pos h1]
      exact h'
    · rw [if_neg h1]
      by_cases h2 : (t.artists.head?.map Prod.fst).any
          (fun a => ¬ a = "" ∧ 3 ≤ acount st'.counts a) = true
      · rw [if_pos h2]
        exact h'
      · rw [if_neg h2]
        intro c hc
        have hc' : c ∈ st'.recs ∨ c = ⟨t.id, t.name, (t.artists.head?.map Prod.snd).getD "Unknown",
            t.artists.head?.map Prod.fst, candPop t.popularity, gname⟩ := by
          simpa [stage3Accept] using hc
        rcases hc' with h | h
        · exact h' c h
        · subst h
          simp only
          exact fun hmem => h1 (Or.inr hmem)

theorem stage4_excl (ex : List String) (fetch : String → Option (List STrack))
    (gs : List String) (tops? : Option (List SArtist)) (st : GenState)
    (hst : ∀ c ∈ st.recs, c.id ∉ ex) :
    ∀ c ∈ (stage4 ex fetch gs tops? st).recs, c.id ∉ ex := by
  unfold stage4
  cases tops? with
  | none => exact hst
  | some tops =>
    refine foldl_preserve (P := fun (s : GenState) => ∀ c ∈ s.recs, c.id ∉ ex) ?_ _ hst
    intro s ar hs
    unfold stage4Artist
    cases hf : fetch ar.id with
    | none => exact hs
    | some ts =>
      refine foldl_preserve (P := fun (s' : GenState) => ∀ c ∈ s'.recs, c.id ∉ ex) ?_ _ hs
      intro s' t hs'
      by_cases h1 : t.id ∈ s'.seen ∨ t.id ∈ ex
      · rw [if_pos h1]
        exact hs'
      · rw [if_neg h1]
        intro c hc
        have hc' : c ∈ s'.recs ∨ c = ⟨t.id, t.name, ar.name, some ar.id,
            candPop t.popularity, "top_artist_match"⟩ := by
          simpa using hc
        rcases hc' with h | h
        · exact hs' c h
        · subst h
          simp only
          exact fun hmem => h1 (Or.inr hmem)

theorem discoverCore_ok (env : DiscEnv) (a : DiscArgs) (el : Nat) (info : SeedInfo)
    (res : DiscResult) (tr : List DCall) (h : discoverCore env a el info = (.ok res, tr)) :
    res.recommendations = rankTruncate (discoverStages env a info).recs info.popularity el := by
  cases hcp : env.createPlaylist ("Discover: " ++ info.artistName.getD "My Genres") with
  | none =>
    simp only [discoverCore, hcp] at h
    split at h
    · exact absurd h (by simp)
    · simp only [Prod.mk.injEq, Except.ok.injEq] at h
      obtain ⟨h1, _⟩ := h
      rw [← h1]
  | some pid =>
    simp only [discoverCore, hcp] at h
    split at h
    · simp only [Prod.mk.injEq, Except.ok.injEq] at h
      obtain ⟨h1, _⟩ := h
      rw [← h1]
    · simp only [Prod.mk.injEq, Except.ok.injEq] at h
      obtain ⟨h1, _⟩ := h
      rw [← h1]

theorem discoverStages_excl (env : DiscEnv) (a : DiscArgs) (info : SeedInfo) :
    ∀ c ∈ (discoverStages env a info).recs, c.id ∉ discoverExclude env := by
  simp only [discoverStages]
  split
  · exact stage4_excl _ _ _ _ _ (stage3_excl _ _)
  · exact stage3_excl _ _

theorem discover_ok (env : DiscEnv) (a : DiscArgs) (res : DiscResult) (tr : List DCall)
    (h : discover env a = (.ok res, tr)) :
    ∃ info tr1 tr2, resolveSeed env a = (.ok info, tr1) ∧
      discoverCore env a (min a.limit 50) info = (.ok res, tr2) := by
  simp only [discover] at h
  split at h
  · exact absurd h (by simp)
  · split at h
    · exact absurd h (by simp)
    · rcases hr : resolveSeed env a with ⟨r, tr1⟩
      rw [hr] at h
      cases r with
      | error e => exact absurd h (by simp)
      | ok info =>
        simp only at h
        split at h
        · exact absurd h (by simp)
        · rcases hc : discoverCore env a (min a.limit 50) info with ⟨r2, tr2⟩
          rw [hc] at h
          simp only [Prod.mk.injEq] at h
          obtain ⟨h1, _⟩ := h
          refine ⟨info, tr1, tr2, rfl, ?_⟩
          rw [hc, h1]

/-- C5: in every Discover invocation that returns a result, no track id of
the computed exclusion set (recent plays union saved library) appears among
the returned recommendations: both generation stages skip every excluded
id, and ranking and truncation only select from the generated candidates. -/
theorem claimC5_exclusion (env : DiscEnv) (a : DiscArgs) (res : DiscResult) (tr : List DCall)
    (h : discover env a = (.ok res, tr)) :
    ∀ c ∈ res.recommendations, c.id ∉ discoverExclude env := by
  obtain ⟨info, tr1, tr2, hr, hcore⟩ := discover_ok env a res tr h
  intro c hc
  rw [discoverCore_ok env a (min a.limit 50) info res tr2 hcore] at hc
  unfold rankTruncate at hc
  have hc2 : c ∈ (discoverStages env a info).recs :=
    List.mem_mergeSort.mp (List.mem_of_mem_take hc)
  exact discoverStages_excl env a info c hc2

/-- Witness for C5: a concrete listening-history Discover run that returns
one recommendation, whose id is indeed outside the exclusion set. -/
theorem claimC5_witness :
    discover c5Env c5Args =
      (.ok ⟨["g"], [c5Rec], none⟩,
       [.topArtists "medium_term" 10, .recent 50, .saved 100,
        .searchGenre "g" "2015-2025" 20]) ∧
    c5Rec.id ∉ discoverExclude c5Env := by
  have hd : discover c5Env c5Args =
      (.ok ⟨["g"], [c5Rec], none⟩,
       [.topArtists "medium_term" 10, .recent 50, .saved 100,
        .searchGenre "g" "2015-2025" 20]) := by
    simp [discover, c5Env, c5Args, resolveSeed, tallyGenres, topTallyGenres, abump, aupsert,
      alookup, acount, discoverCore, discoverStages, discoverExclude, excludeTrace,
      genreSearches, stage3, stage3Genre, stage3Track, stage3Accept, rankTruncate, candPop,
      cTrack, c5Rec, seedMissing]
  exact ⟨hd, claimC5_exclusion c5Env c5Args ⟨["g"], [c5Rec], none⟩
    [.topArtists "medium_term" 10, .recent 50, .saved 100, .searchGenre "g" "2015-2025" 20]
    hd c5Rec (by simp)⟩

theorem popDist_le_trans (p : Int) : ∀ (a b c : Cand),
    decide (popDist p a ≤ popDist p b) = true → decide (popDist p b ≤ popDist p c) = true →
    decide (popDist p a ≤ popDist p c) = true := by
  intro a b c h1 h2
  simp only [decide_eq_true_eq] at *
  omega

theorem popDist_le_total (p : Int) : ∀ (a b : Cand),
    (decide (popDist p a ≤ popDist p b) || decide (popDist p b ≤ popDist p a)) = true := by
  intro a b
  simp only [Bool.or_eq_true, decide_eq_true_eq]
  omega

theorem rankTruncate_chain (recs : List Cand) (p : Int) (n : Nat) :
    (rankTruncate recs p n).Chain' (fun a b => popDist p a ≤ popDist p b) := by
  have hs := List.sorted_mergeSort (popDist_le_trans p) (popDist_le_total p) recs
  have hp : (rankTruncate recs p n).Pairwise
      (fun a b => decide (popDist p a ≤ popDist p b) = true) :=
    List.Pairwise.sublist (List.take_sublist _ _) hs
  exact List.Pairwise.chain' (hp.imp (fun h => by simpa using h))

/-- C3: the Discover ranking sorts the full candidate set by absolute
popularity distance to the seed popularity, ascending and stable (the sorted
list is a permutation of the candidates, and two candidates at equal
distance keep their insertion order), then truncates to `min(limit, 50)`;
consequently the output length is `min` of the candidate count and the cap,
and in every Discover invocation that produces a result no two adjacent
recommendations violate the distance ordering. -/
theorem claimC3_ranking (recs : List Cand) (p : Int) (l : Nat) :
    (rankTruncate recs p (min l 50) =
      (recs.mergeSort (fun a b => popDist p a ≤ popDist p b)).take (min l 50)) ∧
    (rankTruncate recs p (min l 50)).Chain' (fun a b => popDist p a ≤ popDist p b) ∧
    (recs.mergeSort (fun a b => popDist p a ≤ popDist p b)).Perm recs ∧
    (rankTruncate recs p (min l 50)).length = min (min l 50) recs.length ∧
    (∀ a b, [a, b].Sublist recs → popDist p a = popDist p b →
      [a, b].Sublist (recs.mergeSort (fun a b => popDist p a ≤ popDist p b))) ∧
    (∀ (env : DiscEnv) (args : DiscArgs) (res : DiscResult) (tr : List DCall)
      (info : SeedInfo) (tr1 : List DCall) (tr2 : List DCall),
      discover env args = (.ok res, tr) → resolveSeed env args = (.ok info, tr1) →
      discoverCore env args (min args.limit 50) info = (.ok res, tr2) →
      res.recommendations.Chain'
        (fun a b => popDist info.popularity a ≤ popDist info.popularity b)) := by
  refine ⟨rfl, rankTruncate_chain recs p (min l 50), List.mergeSort_perm recs _, ?_, ?_, ?_⟩
  · unfold rankTruncate
    rw [List.length_take, List.length_mergeSort]
  · intro a b hsub hdist
    exact List.pair_sublist_mergeSort (popDist_le_trans p) (popDist_le_total p)
      (by simp [hdist]) hsub
  · intro env args res tr info tr1 tr2 _ _ hcore
    rw [discoverCore_ok env args (min args.limit 50) info res tr2 hcore]
    exact rankTruncate_chain _ _ _

/-- Witness for C3 at seed popularity 20, limit 30, and two candidates at
equal distance in input order: the pair keeps its order in the sorted list,
and the ranked output of the concrete `c5Env` Discover run is
distance-sorted. -/
theorem claimC3_witness :
    ([c3A, c3B].Sublist [c3A, c3B] ∧ popDist 20 c3A = popDist 20 c3B) ∧
    [c3A, c3B].Sublist ([c3A, c3B].mergeSort (fun a b => popDist 20 a ≤ popDist 20 b)) ∧
    (rankTruncate [c3A, c3B] 20 (min 30 50)).Chain' (fun a b => popDist 20 a ≤ popDist 20 b) :=
  ⟨⟨by decide, by decide⟩,
   (claimC3_ranking [c3A, c3B] 20 30).2.2.2.2.1 c3A c3B (by decide) (by decide),
   (claimC3_ranking [c3A, c3B] 20 30).2.1⟩

/-! ## Claim C9 -/

/-- C9: every input-validation failure returns a user-facing message
immediately with no collaborator call issued: a Discover `seed_type` outside
the three valid values, a missing (or empty) `seed_value` for an artist or
track seed, and a MyTopMusic `time_range` outside the three valid ranges. -/
theorem claimC9_validation_no_calls :
    (∀ (env : DiscEnv) (a : DiscArgs),
      ¬(a.seedType = "artist" ∨ a.seedType = "track" ∨ a.seedType = "listening_history") →
      discover env a = (.error ("Invalid seed_type: " ++ a.seedType ++
        ". Must be 'artist', 'track', or 'listening_history'."), [])) ∧
    (∀ (env : DiscEnv) (a : DiscArgs),
      (a.seedType = "artist" ∨ a.seedType = "track") → seedMissing a.seedValue →
      discover env a =
        (.error ("seed_value is required for seed_type '" ++ a.seedType ++ "'."), [])) ∧
    (∀ (env : TopEnv) (a : TopArgs),
      ¬(a.timeRange = "short_term" ∨ a.timeRange = "medium_term" ∨ a.timeRange = "long_term") →
      myTopMusic env a = (.error ("Invalid time_range: " ++ a.timeRange ++
        ". Must be 'short_term', 'medium_term', or 'long_term'."), [])) := by
  refine ⟨?_, ?_, ?_⟩
  · intro env a h
    simp only [discover]
    rw [if_pos h]
  · intro env a h1 h2
    have hnot : ¬¬(a.seedType = "artist" ∨ a.seedType = "track" ∨
        a.seedType = "listening_history") := by tauto
    simp only [discover]
    rw [if_neg hnot, if_pos ⟨h1, h2⟩]
  · intro env a h
    simp only [myTopMusic]
    rw [if_pos h]

/-- Witness for C9 at concrete invalid arguments against environments whose
every call would raise: the error messages are returned with empty call
traces. -/
theorem claimC9_witness :
    discover c9DEnv ⟨"bogus", none, "2015-2025", 30, false⟩ =
      (.error ("Invalid seed_type: " ++ "bogus" ++
        ". Must be 'artist', 'track', or 'listening_history'."), []) ∧
    discover c9DEnv ⟨"artist", none, "2015-2025", 30, false⟩ =
      (.error ("seed_value is required for seed_type '" ++ "artist" ++ "'."), []) ∧
    myTopMusic c9TEnv ⟨"weekly", 10, false⟩ =
      (.error ("Invalid time_range: " ++ "weekly" ++
        ". Must be 'short_term', 'medium_term', or 'long_term'."), []) :=
  ⟨claimC9_validation_no_calls.1 c9DEnv ⟨"bogus", none, "2015-2025", 30, false⟩ (by decide),
   claimC9_validation_no_calls.2.1 c9DEnv ⟨"artist", none, "2015-2025", 30, false⟩
     (Or.inl rfl) (Or.inl rfl),
   claimC9_validation_no_calls.2.2 c9TEnv ⟨"weekly", 10, false⟩ (by decide)⟩

/-! ## Claim C7 -/

/-- Counterexample to C7: the popularity values fed into ranking are not
clamped to [0,100] and absent values do not uniformly default to 0.  The
seed popularity of a track seed with an absent popularity field is 50, not
0 (server.py 807), and a popularity of 150 flows unclamped into a Discover
candidate and into an ArtistDeepDive collected track. -/
theorem claimC7_counterexample :
    (resolveSeed c7Env c7Args).1 = .ok ⟨["g7"], some "A7", 50⟩ ∧
    (50 : Int) ≠ 0 ∧
    (stage3 [] [("g", some [c7Track 150])]).recs.map Cand.popularity = [150] ∧
    ¬((150 : Int) ≤ 100) ∧
    (collectTrack "2001" "album" "X" "t" "n" (some 150)).popularity = 150 :=
  ⟨rfl, by decide, by decide, by decide, rfl⟩

/-- C7 as amended: popularity values are used exactly as delivered, with no
clamping; an absent popularity defaults to 0 for Discover candidates and
ArtistDeepDive collected tracks, but the seed popularity derived from a
track seed defaults to 50 when absent. -/
theorem claimC7_amended_popularity_defaults :
    (∀ p : Int, (stage3 [] [("g", some [c7Track p])]).recs.map Cand.popularity = [p]) ∧
    (stage3 [] [("g", some [c7NoPop])]).recs.map Cand.popularity = [0] ∧
    (∀ (rd ty an tid tn : String) (p? : Option Int),
      (collectTrack rd ty an tid tn p?).popularity = p?.getD 0) ∧
    (∀ (env : DiscEnv) (a : DiscArgs) (t : STrack) (info : SeedInfo) (tr : List DCall),
      a.seedType = "track" → env.getTrack (lastColonSeg (a.seedValue.getD "")) = some t →
      resolveSeed env a = (.ok info, tr) → info.popularity = t.popularity.getD 50) := by
  refine ⟨?_, ?_, ?_, ?_⟩
  · intro p
    simp [stage3, stage3Genre, stage3Track, stage3Accept, acount, alookup, candPop, c7Track]
  · decide
  · intro rd ty an tid tn p?
    rfl
  · intro env a t info tr h1 h2 h3
    rw [resolveSeed, h1] at h3
    rw [if_neg (by decide), if_pos rfl] at h3
    rcases hh : t.artists.head? with _ | pr
    · simp only [h2, hh] at h3
      simp only [Prod.mk.injEq, Except.ok.injEq] at h3
      obtain ⟨h4, _⟩ := h3
      rw [← h4]
      rfl
    · obtain ⟨aid, anm⟩ := pr
      rcases hga : env.getArtist aid with _ | det
      · simp only [h2, hh, hga] at h3
        exact absurd h3 (by simp)
      · simp only [h2, hh, hga] at h3
        simp only [Prod.mk.injEq, Except.ok.injEq] at h3
        obtain ⟨h4, _⟩ := h3
        rw [← h4]
        rfl

/-- Witness for the amended C7 at concrete inputs: popularity 123 flows
through the genre stage unchanged, and the track-seed resolution of the
popularity-less `c7NoPop` yields seed popularity 50. -/
theorem claimC7_witness :
    (stage3 [] [("g", some [c7Track 123])]).recs.map Cand.popularity = [123] ∧
    (SeedInfo.mk ["g7"] (some "A7") 50).popularity = c7NoPop.popularity.getD 50 :=
  ⟨claimC7_amended_popularity_defaults.1 123,
   claimC7_amended_popularity_defaults.2.2.2 c7Env c7Args c7NoPop
     ⟨["g7"], some "A7", 50⟩ [.getTrack "t7", .getArtist "a7"] rfl rfl rfl⟩

/-! ## Claim C10 -/

theorem librarianDelta_spec (env : LibEnv) (dr : Bool) (style : String) (p : SPlaylist) :
    (∀ c ∈ (librarianDelta env dr style p).2.1,
      (∀ pid, c = .getTracks pid → pid = p.id) ∧
      (∀ pid nm, c = .rename pid nm → pid = p.id)) ∧
    (∀ ch ∈ (librarianDelta env dr style p).1.toList, ch.playlistId = p.id) := by
  by_cases h1 : GENRE_CATEGORIES.any (fun c => startsWithStr c.1 p.name) = true
  · rw [librarianDelta, if_pos h1]
    constructor
    · intro c hc
      exact absurd hc (by simp)
    · intro ch hch
      exact absurd hch (by simp)
  · rw [librarianDelta, if_neg h1]
    rcases hpt : env.playlistTracks p.id with _ | entries
    · simp only [hpt]
      constructor
      · intro c hc
        simp only [List.mem_singleton] at hc
        refine ⟨fun pid h => ?_, fun pid nm h => ?_⟩ <;> subst h <;> simp_all
      · intro ch hch
        exact absurd hch (by simp)
    · simp only [hpt]
      by_cases hem : (entries.take 30).isEmpty = true
      · rw [if_pos hem]
        constructor
        · intro c hc
          simp only [List.mem_singleton] at hc
          refine ⟨fun pid h => ?_, fun pid nm h => ?_⟩ <;> subst h <;> simp_all
        · intro ch hch
          exact absurd hch (by simp)
      · rw [if_neg hem]
        by_cases hti : ((entries.take 30).filterMap entryId).isEmpty = true
        · rw [if_pos hti]
          constructor
          · intro c hc
            simp only [List.mem_singleton] at hc
            refine ⟨fun pid h => ?_, fun pid nm h => ?_⟩ <;> subst h <;> simp_all
          · intro ch hch
            exact absurd hch (by simp)
        · rw [if_neg hti]
          rcases hat : env.artistsForTracks ((entries.take 30).filterMap entryId) with _ | artistIds
          · simp only [hat]
            constructor
            · intro c hc
              simp only [List.mem_cons, List.mem_singleton, List.not_mem_nil, or_false] at hc
              refine ⟨fun pid h => ?_, fun pid nm h => ?_⟩ <;> subst h <;> simp_all
            · intro ch hch
              exact absurd hch (by simp)
          · simp only [hat]
            by_cases hai : artistIds.isEmpty = true
            · rw [if_pos hai]
              constructor
              · intro c hc
                simp only [List.mem_cons, List.mem_singleton, List.not_mem_nil, or_false] at hc
                refine ⟨fun pid h => ?_, fun pid nm h => ?_⟩ <;> subst h <;> simp_all
              · intro ch hch
                exact absurd hch (by simp)
            · rw [if_neg hai]
              rcases hag : env.artistsGenres artistIds with _ | ag
              · simp only [hag]
                constructor
                · intro c hc
                  simp only [List.mem_cons, List.mem_singleton, List.not_mem_nil,
                    or_false] at hc
                  refine ⟨fun pid h => ?_, fun pid nm h => ?_⟩ <;> subst h <;> simp_all
                · intro ch hch
                  exact absurd hch (by simp)
              · simp only [hag]
                rcases hcl : (classify ((ag.map Prod.snd).flatten)).1 with _ | cat
                · simp only [hcl]
                  constructor
                  · intro c hc
                    simp only [List.mem_cons, List.mem_singleton, List.not_mem_nil,
                      or_false] at hc
                    refine ⟨fun pid h => ?_, fun pid nm h => ?_⟩ <;> subst h <;> simp_all
                  · intro ch hch
                    exact absurd hch (by simp)
                · simp only [hcl]
                  by_cases hsc : 0 < (classify ((ag.map Prod.snd).flatten)).2
                  · rw [if_pos hsc]
                    constructor
                    · intro c hc
                      simp only [List.mem_append, List.mem_cons, List.mem_singleton,
                        List.not_mem_nil, or_false] at hc
                      by_cases hdr : dr = true
                      · subst hdr
                        simp only [if_pos rfl, List.not_mem_nil, or_false] at hc
                        refine ⟨fun pid h => ?_, fun pid nm h => ?_⟩ <;> subst h <;> simp_all
                      · have hdr' : dr = false := by
                          cases dr
                          · rfl
                          · exact absurd rfl hdr
                        subst hdr'
                        simp only [Bool.false_eq_true, if_neg, List.mem_singleton] at hc
                        refine ⟨fun pid h => ?_, fun pid nm h => ?_⟩ <;> subst h <;> simp_all
                    · intro ch hch
                      simp only [Option.toList_some, List.mem_singleton] at hch
                      subst hch
                      rfl
                  · rw [if_neg hsc]
                    constructor
                    · intro c hc
                      simp only [List.mem_cons, List.mem_singleton, List.not_mem_nil,
                        or_false] at hc
                      refine ⟨fun pid h => ?_, fun pid nm h => ?_⟩ <;> subst h <;> simp_all
                    · intro ch hch
                      exact absurd hch (by simp)

/-- C10: PlaylistLibrarian only touches playlists owned by the current
user.  For any playlist entry belonging to a different owner (playlist ids
being unique), no track fetch for its id is issued, no rename of it is ever
called, and it receives no category (it never appears in the changes list),
regardless of dry-run flag, naming style, name, or contents. -/
theorem claimC10_owner_filter (env : LibEnv) (dr : Bool) (style : String)
    (ps : List SPlaylist) (uid : String) (p : SPlaylist) (res : Except String LibResult)
    (tr : List LCall)
    (hps : env.allPlaylists = some ps) (huid : env.userId = some uid)
    (hnd : (ps.map SPlaylist.id).Nodup) (hp : p ∈ ps) (how : p.ownerId ≠ uid)
    (hrun : playlistLibrarian env dr style = (res, tr)) :
    LCall.getTracks p.id ∉ tr ∧ (∀ nm, LCall.rename p.id nm ∉ tr) ∧
    (∀ r, res = .ok r → p.id ∉ r.changes.map LibChange.playlistId) := by
  have howned : p.id ∉ (ps.filter (fun q => decide (q.ownerId = uid))).map SPlaylist.id := by
    intro hmem
    obtain ⟨q, hq, hqid⟩ := List.mem_map.mp hmem
    have hqf := List.mem_filter.mp hq
    have hq2 : q.ownerId = uid := by simpa using hqf.2
    have hqp : q = p := List.inj_on_of_nodup_map hnd hqf.1 hp hqid
    exact how (hqp ▸ hq2)
  have hinv : (∀ pid, LCall.getTracks pid ∈
        ((ps.filter (fun q => decide (q.ownerId = uid))).foldl (librarianStep env dr style)
          ⟨[], GENRE_CATEGORIES.map (fun c => (c.1, 0)), 0, []⟩).trace →
        pid ∈ (ps.filter (fun q => decide (q.ownerId = uid))).map SPlaylist.id) ∧
      (∀ pid nm, LCall.rename pid nm ∈
        ((ps.filter (fun q => decide (q.ownerId = uid))).foldl (librarianStep env dr style)
          ⟨[], GENRE_CATEGORIES.map (fun c => (c.1, 0)), 0, []⟩).trace →
        pid ∈ (ps.filter (fun q => decide (q.ownerId = uid))).map SPlaylist.id) ∧
      (∀ ch ∈ ((ps.filter (fun q => decide (q.ownerId = uid))).foldl (librarianStep env dr style)
          ⟨[], GENRE_CATEGORIES.map (fun c => (c.1, 0)), 0, []⟩).changes,
        ch.playlistId ∈ (ps.filter (fun q => decide (q.ownerId = uid))).map SPlaylist.id) := by
    refine foldl_preserve_mem (P := fun (st : LibState) =>
      (∀ pid, LCall.getTracks pid ∈ st.trace →
        pid ∈ (ps.filter (fun q => decide (q.ownerId = uid))).map SPlaylist.id) ∧
      (∀ pid nm, LCall.rename pid nm ∈ st.trace →
        pid ∈ (ps.filter (fun q => decide (q.ownerId = uid))).map SPlaylist.id) ∧
      (∀ ch ∈ st.changes,
        ch.playlistId ∈ (ps.filter (fun q => decide (q.ownerId = uid))).map SPlaylist.id))
      _ ?_ (s := ⟨[], GENRE_CATEGORIES.map (fun c => (c.1, 0)), 0, []⟩) (by simp)
    intro st q hq hst
    have hcalls := (librarianDelta_spec env dr style q).1
    have hch := (librarianDelta_spec env dr style q).2
    have hqid : q.id ∈ (ps.filter (fun q' => decide (q'.ownerId = uid))).map SPlaylist.id :=
      List.mem_map.mpr ⟨q, hq, rfl⟩
    have hstep : librarianStep env dr style st q =
        { changes := st.changes ++ (librarianDelta env dr style q).1.toList,
          counts := match (librarianDelta env dr style q).1 with
            | none => st.counts
            | some ch => abump st.counts ch.category,
          skipped := st.skipped + (librarianDelta env dr style q).2.2,
          trace := st.trace ++ (librarianDelta env dr style q).2.1 } := by
      rw [librarianStep]
    rw [hstep]
    refine ⟨?_, ?_, ?_⟩
    · intro pid hmem
      rcases List.mem_append.mp hmem with h | h
      · exact hst.1 pid h
      · exact ((hcalls _ h).1 pid rfl) ▸ hqid
    · intro pid nm hmem
      rcases List.mem_append.mp hmem with h | h
      · exact hst.2.1 pid nm h
      · exact ((hcalls _ h).2 pid nm rfl) ▸ hqid
    · intro ch hmem
      rcases List.mem_append.mp hmem with h | h
      · exact hst.2.2 ch h
      · exact (hch ch h) ▸ hqid
  simp only [playlistLibrarian, hps, huid] at hrun
  simp only [Prod.mk.injEq] at hrun
  obtain ⟨hres, htr⟩ := hrun
  refine ⟨?_, ?_, ?_⟩
  · intro hmem
    rw [← htr] at hmem
    rcases List.mem_append.mp hmem with h | h
    · simp at h
    · exact howned (hinv.1 p.id h)
  · intro nm hmem
    rw [← htr] at hmem
    rcases List.mem_append.mp hmem with h | h
    · simp at h
    · exact howned (hinv.2.1 p.id nm h)
  · intro r hr
    rw [← hres] at hr
    have hrch : r.changes = ((ps.filter (fun q => decide (q.ownerId = uid))).foldl
        (librarianStep env dr style)
        ⟨[], GENRE_CATEGORIES.map (fun c => (c.1, 0)), 0, []⟩).changes := by
      rw [← Except.ok.inj hr]
    intro hmem
    rw [hrch] at hmem
    obtain ⟨ch, hchm, hchid⟩ := List.mem_map.mp hmem
    exact howned (hchid ▸ hinv.2.2 ch hchm)

/-- Witness for C10: against the concrete `c10Env`, whose playlist list
contains a foreign-owned playlist, no track fetch for that playlist is
issued. -/
theorem claimC10_witness :
    c10Other ∈ [c10Mine, c10Other] ∧ c10Other.ownerId ≠ "me" ∧
    LCall.getTracks c10Other.id ∉ (playlistLibrarian c10Env true "emoji").2 :=
  ⟨by decide, by decide,
   (claimC10_owner_filter c10Env true "emoji" [c10Mine, c10Other] "me" c10Other
     (playlistLibrarian c10Env true "emoji").1 (playlistLibrarian c10Env true "emoji").2
     rfl rfl (by decide) (by decide) (by decide) rfl).1⟩

/-! ## Claim C8 -/

theorem chunksOfAux_flatten {α : Type} (n : Nat) (hn : 0 < n) :
    ∀ (fuel : Nat) (l : List α), l.length ≤ fuel → (chunksOfAux n fuel l).flatten = l := by
  intro fuel
  induction fuel with
  | zero =>
    intro l hl
    cases l with
    | nil => rfl
    | cons x xs => simp at hl
  | succ fuel ih =>
    intro l hl
    cases l with
    | nil => rfl
    | cons x xs =>
      show ((x :: xs).take n :: chunksOfAux n fuel ((x :: xs).drop n)).flatten = x :: xs
      rw [List.flatten_cons]
      rw [ih ((x :: xs).drop n) (by
        rw [List.length_drop]
        simp only [List.length_cons] at hl ⊢
        omega)]
      exact List.take_append_drop n (x :: xs)

theorem chunksOf_flatten {α : Type} (n : Nat) (hn : 0 < n) (l : List α) :
    (chunksOf n l).flatten = l := by
  unfold chunksOf
  rw [if_neg (by omega)]
  exact chunksOfAux_flatten n hn l.length l le_rfl

theorem chunksOfAux_mem_length {α : Type} (n : Nat) :
    ∀ (fuel : Nat) (l : List α) (c : List α), c ∈ chunksOfAux n fuel l → c.length ≤ n := by
  intro fuel
  induction fuel with
  | zero => intro l c hc; simp [chunksOfAux] at hc
  | succ fuel ih =>
    intro l c hc
    cases l with
    | nil => simp [chunksOfAux] at hc
    | cons x xs =>
      rcases List.mem_cons.mp hc with h | h
      · subst h
        rw [List.length_take]
        omega
      · exact ih _ c h

theorem chunksOf_mem_length {α : Type} (n : Nat) (l : List α) (c : List α)
    (hc : c ∈ chunksOf n l) : c.length ≤ n := by
  unfold chunksOf at hc
  by_cases hn : n = 0
  · rw [if_pos hn] at hc
    simp at hc
  · rw [if_neg hn] at hc
    exact chunksOfAux_mem_length n l.length l c hc

theorem setAdd_mem (s : List String) (x y : String) :
    y ∈ setAdd s x ↔ y ∈ s ∨ y = x := by
  unfold setAdd
  split
  · constructor
    · exact Or.inl
    · rintro (h | rfl)
      · exact h
      · assumption
  · simp

theorem setAdd_nodup (s : List String) (x : String) (h : s.Nodup) : (setAdd s x).Nodup := by
  unfold setAdd
  split
  · exact h
  · simp_all [List.nodup_append]

theorem gaftChunk_mem : ∀ (resp : List (Option STrack)) (s : List String) (y : String),
    y ∈ gaftChunk s resp ↔ y ∈ s ∨ y ∈ gaftChunkItems resp := by
  intro resp
  induction resp with
  | nil => intro s y; simp [gaftChunk, gaftChunkItems]
  | cons t? resp ih =>
    intro s y
    cases t? with
    | none =>
      show y ∈ gaftChunk s resp ↔ _
      rw [ih]
      simp [gaftChunkItems]
    | some t =>
      cases ha : t.artists.head? with
      | none =>
        have h1 : gaftChunk s (some t :: resp) = gaftChunk s resp := by
          simp [gaftChunk, ha]
        have h2 : gaftChunkItems (some t :: resp) = gaftChunkItems resp := by
          simp [gaftChunkItems, ha]
        rw [h1, h2, ih]
      | some pr =>
        have h1 : gaftChunk s (some t :: resp) = gaftChunk (setAdd s pr.1) resp := by
          simp [gaftChunk, ha]
        have h2 : gaftChunkItems (some t :: resp) = pr.1 :: gaftChunkItems resp := by
          simp [gaftChunkItems, ha]
        rw [h1, h2, ih, setAdd_mem]
        constructor
        · rintro ((h | h) | h)
          · exact Or.inl h
          · exact Or.inr (List.mem_cons.mpr (Or.inl h))
          · exact Or.inr (List.mem_cons.mpr (Or.inr h))
        · rintro (h | h)
          · exact Or.inl (Or.inl h)
          · rcases List.mem_cons.mp h with h | h
            · exact Or.inl (Or.inr h)
            · exact Or.inr h

theorem gaftChunk_nodup : ∀ (resp : List (Option STrack)) (s : List String),
    s.Nodup → (gaftChunk s resp).Nodup := by
  intro resp
  induction resp with
  | nil => intro s h; exact h
  | cons t? resp ih =>
    intro s h
    cases t? with
    | none => exact ih s h
    | some t =>
      cases ha : t.artists.head? with
      | none =>
        have h1 : gaftChunk s (some t :: resp) = gaftChunk s resp := by
          simp [gaftChunk, ha]
        rw [h1]
        exact ih s h
      | some pr =>
        have h1 : gaftChunk s (some t :: resp) = gaftChunk (setAdd s pr.1) resp := by
          simp [gaftChunk, ha]
        rw [h1]
        exact ih _ (setAdd_nodup s pr.1 h)

theorem gaftGo_spec (fetch : List String → Option (List (Option STrack))) :
    ∀ (cs : List (List String)) (s : List String) (out : List String),
      (gaftGo fetch cs s).2 = some out →
      (gaftGo fetch cs s).1 = cs ∧ (s.Nodup → out.Nodup) ∧
      ∃ rs, cs.mapM fetch = some rs ∧
        (∀ x, x ∈ out ↔ x ∈ s ∨ x ∈ (rs.map gaftChunkItems).flatten) := by
  intro cs
  induction cs with
  | nil =>
    intro s out h
    have hout : s = out := by simpa [gaftGo] using h
    subst hout
    exact ⟨rfl, fun hh => hh, [], rfl, by simp⟩
  | cons c cs ih =>
    intro s out h
    cases hf : fetch c with
    | none =>
      rw [show gaftGo fetch (c :: cs) s = ([c], none) from by simp [gaftGo, hf]] at h
      exact absurd h (by simp)
    | some resp =>
      have heq : gaftGo fetch (c :: cs) s =
          (c :: (gaftGo fetch cs (gaftChunk s resp)).1,
           (gaftGo fetch cs (gaftChunk s resp)).2) := by
        rcases he : gaftGo fetch cs (gaftChunk s resp) with ⟨tr, r⟩
        simp [gaftGo, hf, he]
      rw [heq] at h
      obtain ⟨htr, hnd, rs', hmap, hmem⟩ := ih (gaftChunk s resp) out h
      refine ⟨by rw [heq]; simp [htr], ?_, resp :: rs', ?_, ?_⟩
      · intro hs
        exact hnd (gaftChunk_nodup resp s hs)
      · rw [List.mapM_cons, hf, hmap]
        rfl
      · intro x
        rw [hmem x, gaftChunk_mem]
        simp [or_assoc]

theorem aupsert_keys_of_none {β : Type} (m : List (String × β)) (k : String) (v : β)
    (h : alookup k m = none) : (aupsert m k v).map Prod.fst = m.map Prod.fst ++ [k] := by
  induction m with
  | nil => simp [aupsert]
  | cons q m ih =>
    obtain ⟨k0, v0⟩ := q
    by_cases h0 : k0 = k
    · simp [alookup, h0] at h
    · simp only [alookup, if_neg h0] at h
      simp [aupsert, h0, ih h]

theorem aupsert_keys_nodup {β : Type} (m : List (String × β)) (k : String) (v : β)
    (h : (m.map Prod.fst).Nodup) : ((aupsert m k v).map Prod.fst).Nodup := by
  cases hl : alookup k m with
  | none =>
    rw [aupsert_keys_of_none m k v hl]
    have hk : k ∉ m.map Prod.fst := (alookup_eq_none_iff k m).mp hl
    simp_all [List.nodup_append]
  | some v' =>
    rw [keys_aupsert_of_mem m k v (by rw [hl]; exact fun hh => Option.noConfusion hh)]
    exact h

theorem gagChunk_keys_nodup : ∀ (resp : List (Option SArtist)) (m : List (String × List String)),
    (m.map Prod.fst).Nodup → ((gagChunk m resp).map Prod.fst).Nodup := by
  intro resp
  induction resp with
  | nil => intro m h; exact h
  | cons a? resp ih =>
    intro m h
    cases a? with
    | none => exact ih m h
    | some ar => exact ih _ (aupsert_keys_nodup m ar.id ar.genres h)

theorem gagGo_spec (fetchA : List String → Option (List (Option SArtist))) :
    ∀ (cs : List (List String)) (m : List (String × List String))
      (out : List (String × List String)),
      (gagGo fetchA cs m).2 = some out →
      (gagGo fetchA cs m).1 = cs ∧
      ((m.map Prod.fst).Nodup → (out.map Prod.fst).Nodup) := by
  intro cs
  induction cs with
  | nil =>
    intro m out h
    have hout : m = out := by simpa [gagGo] using h
    subst hout
    exact ⟨rfl, fun hh => hh⟩
  | cons c cs ih =>
    intro m out h
    cases hf : fetchA c with
    | none =>
      rw [show gagGo fetchA (c :: cs) m = ([c], none) from by simp [gagGo, hf]] at h
      exact absurd h (by simp)
    | some resp =>
      have heq : gagGo fetchA (c :: cs) m =
          (c :: (gagGo fetchA cs (gagChunk m resp)).1,
           (gagGo fetchA cs (gagChunk m resp)).2) := by
        rcases he : gagGo fetchA cs (gagChunk m resp) with ⟨tr, r⟩
        simp [gagGo, hf, he]
      rw [heq] at h
      obtain ⟨htr, hnd⟩ := ih (gagChunk m resp) out h
      refine ⟨by rw [heq]; simp [htr], ?_⟩
      intro hm
      exact hnd (gagChunk_keys_nodup resp m hm)

/-- Counterexample to C8: for two track ids whose tracks share the primary
artist `a1`, `get_artists_for_tracks` returns the one-element set `{a1}`,
not the two responses' items concatenated in chunk order. -/
theorem claimC8_counterexample :
    (getArtistsForTracks c8Fetch ["t1", "t2"]).2 = some ["a1"] ∧
    gaftConcatSpec c8Fetch ["t1", "t2"] = some ["a1", "a1"] ∧
    (["a1"] : List String) ≠ ["a1", "a1"] := by
  refine ⟨by decide, ?_, by decide⟩
  rfl

/-- C8 as amended: both batch helpers split the id list into consecutive
chunks of at most 50 (which concatenate back to the input) and issue one
collaborator call per chunk in order; but `get_artists_for_tracks` returns
the set of distinct primary-artist ids of the responses (each exactly once,
iteration order unspecified) rather than the concatenated items, and
`get_artists_genres` returns a dict keyed by artist id (one entry per
distinct artist id). -/
theorem claimC8_amended_batching :
    (∀ (ids : List String),
      (chunksOf 50 ids).flatten = ids ∧ ∀ c ∈ chunksOf 50 ids, c.length ≤ 50) ∧
    (∀ (fetch : List String → Option (List (Option STrack))) (ids : List String)
      (out : List String), (getArtistsForTracks fetch ids).2 = some out →
      (getArtistsForTracks fetch ids).1 = chunksOf 50 ids ∧ out.Nodup ∧
      ∃ rs, (chunksOf 50 ids).mapM fetch = some rs ∧
        (∀ x, x ∈ out ↔ x ∈ (rs.map gaftChunkItems).flatten)) ∧
    (∀ (fetchA : List String → Option (List (Option SArtist))) (ids : List String)
      (m : List (String × List String)), (getArtistsGenres fetchA ids).2 = some m →
      (getArtistsGenres fetchA ids).1 = chunksOf 50 ids ∧ (m.map Prod.fst).Nodup) := by
  refine ⟨?_, ?_, ?_⟩
  · intro ids
    exact ⟨chunksOf_flatten 50 (by omega) ids, fun c hc => chunksOf_mem_length 50 ids c hc⟩
  · intro fetch ids out h
    obtain ⟨htr, hnd, rs, hmap, hmem⟩ := gaftGo_spec fetch (chunksOf 50 ids) [] out h
    refine ⟨htr, hnd (by simp), rs, hmap, ?_⟩
    intro x
    rw [hmem x]
    simp
  · intro fetchA ids m h
    obtain ⟨htr, hnd⟩ := gagGo_spec fetchA (chunksOf 50 ids) [] m h
    exact ⟨htr, hnd (by simp)⟩

/-- Witness for the amended C8 at the concrete shared-artist fetch: the
trace is the single 50-chunk and the returned set is `["a1"]`. -/
theorem claimC8_witness :
    (getArtistsForTracks c8Fetch ["t1", "t2"]).2 = some ["a1"] ∧
    (getArtistsForTracks c8Fetch ["t1", "t2"]).1 = chunksOf 50 ["t1", "t2"] :=
  ⟨by decide,
   (claimC8_amended_batching.2.1 c8Fetch ["t1", "t2"] ["a1"] (by decide)).1⟩

/-! ## Claim C6 -/

theorem lexLtB_asymm : ∀ l1 l2 : List Char, lexLtB l1 l2 = true → lexLtB l2 l1 = false := by
  intro l1
  induction l1 with
  | nil =>
    intro l2 h
    cases l2 with
    | nil => simp [lexLtB] at h
    | cons b bs => simp [lexLtB]
  | cons a as ih =>
    intro l2 h
    cases l2 with
    | nil => simp [lexLtB] at h
    | cons b bs =>
      simp only [lexLtB] at h ⊢
      by_cases hab : a < b
      · have hba : ¬ b < a := lt_asymm hab
        simp [hab, hba]
      · by_cases hba : b < a
        · simp [hab, hba] at h
        · simp only [if_neg hab, if_neg hba] at h
          simp only [if_neg hba, if_neg hab]
          exact ih bs h

theorem lexLtB_trans : ∀ l1 l2 l3 : List Char,
    lexLtB l1 l2 = true → lexLtB l2 l3 = true → lexLtB l1 l3 = true := by
  intro l1
  induction l1 with
  | nil =>
    intro l2 l3 h1 h2
    cases l2 with
    | nil => simp [lexLtB] at h1
    | cons b bs =>
      cases l3 with
      | nil => simp [lexLtB] at h2
      | cons c cs => simp [lexLtB]
  | cons a as ih =>
    intro l2 l3 h1 h2
    cases l2 with
    | nil => simp [lexLtB] at h1
    | cons b bs =>
      cases l3 with
      | nil => simp [lexLtB] at h2
      | cons c cs =>
        simp only [lexLtB] at h1 h2 ⊢
        by_cases hab : a < b
        · by_cases hbc : b < c
          · simp [lt_trans hab hbc]
          · by_cases hcb : c < b
            · simp [hab, hbc, hcb] at h2
            · have hbceq : b = c := le_antisymm (le_of_not_lt hcb) (le_of_not_lt hbc)
              subst hbceq
              simp [hab]
        · by_cases hba : b < a
          · simp [hab, hba] at h1
          · have habeq : a = b := le_antisymm (le_of_not_lt hba) (le_of_not_lt hab)
            subst habeq
            simp only [if_neg hab, if_neg (fun h => hab h : ¬ a < a)] at h1
            by_cases hac : a < c
            · simp [hac]
            · by_cases hca : c < a
              · simp [hac, hca] at h2
              · have haceq : a = c := le_antisymm (le_of_not_lt hca) (le_of_not_lt hac)
                subst haceq
                simp only [if_neg hac] at h2 ⊢
                exact ih bs cs h1 h2

theorem lexLtB_connex : ∀ l1 l2 : List Char,
    lexLtB l1 l2 = false → lexLtB l2 l1 = false → l1 = l2 := by
  intro l1
  induction l1 with
  | nil =>
    intro l2 h1 _
    cases l2 with
    | nil => rfl
    | cons b bs => simp [lexLtB] at h1
  | cons a as ih =>
    intro l2 h1 h2
    cases l2 with
    | nil => simp [lexLtB] at h2
    | cons b bs =>
      simp only [lexLtB] at h1 h2
      by_cases hab : a < b
      · simp [hab] at h1
      · by_cases hba : b < a
        · simp [hba, hab] at h2
        · have habeq : a = b := le_antisymm (le_of_not_lt hba) (le_of_not_lt hab)
          subst habeq
          simp only [if_neg hab] at h1 h2
          rw [ih bs h1 h2]

theorem strLeB_total : ∀ a b : String, (strLeB a b || strLeB b a) = true := by
  intro a b
  unfold strLeB
  by_cases h : lexLtB b.data a.data = true
  · have h2 := lexLtB_asymm _ _ h
    simp [h2]
  · simp only [Bool.not_eq_true] at h
    simp [h]

theorem strLeB_trans : ∀ a b c : String,
    strLeB a b = true → strLeB b c = true → strLeB a c = true := by
  intro a b c h1 h2
  unfold strLeB at *
  simp only [Bool.not_eq_true'] at h1 h2 ⊢
  by_cases hca : lexLtB c.data a.data = true
  · by_cases hcb : lexLtB c.data b.data = true
    · rw [hcb] at h2
      exact absurd h2 (by simp)
    · simp only [Bool.not_eq_true] at hcb
      by_cases hbc : lexLtB b.data c.data = true
      · have := lexLtB_trans _ _ _ hbc hca
        rw [this] at h1
        exact absurd h1 (by simp)
      · simp only [Bool.not_eq_true] at hbc
        have := lexLtB_connex _ _ hbc hcb
        rw [← this] at hca
        rw [hca] at h1
        exact absurd h1 (by simp)
  · simpa using hca

/-- C6: for every ArtistDeepDive run over any collected track list, the
Best-of and Deep-Cuts id sets are disjoint by construction (Deep Cuts
filters out Best-of ids); Through the Years is a permutation of the
deduplicated set sorted ascending by release date and its ids are added in
chunks of at most 100 that concatenate back to the full chronological id
list; and — provided the catalog is id-consistent (two collected tracks
with one id have one lower-cased name) — every id of the deduplicated set
occurs in Through the Years exactly once. -/
theorem claimC6_discography (all : List DTrack) (thr : Int) :
    (∀ i ∈ (deepCuts (dedupe all) thr).map DTrack.id, i ∉ bestOfIds (dedupe all)) ∧
    (chronological (dedupe all)).Perm (dedupe all) ∧
    (chronological (dedupe all)).Pairwise
      (fun a b => strLeB a.releaseDate b.releaseDate = true) ∧
    (chronoChunks (dedupe all)).flatten = (chronological (dedupe all)).map DTrack.id ∧
    (∀ c ∈ chronoChunks (dedupe all), c.length ≤ 100) ∧
    ((∀ t1 ∈ all, ∀ t2 ∈ all, t1.id = t2.id → lowKey t1 = lowKey t2) →
      ∀ i ∈ (dedupe all).map DTrack.id,
        ((chronological (dedupe all)).map DTrack.id).count i = 1) := by
  refine ⟨?_, List.mergeSort_perm _ _, ?_, ?_, ?_, ?_⟩
  · intro i hi
    obtain ⟨t, ht, rfl⟩ := List.mem_map.mp hi
    have ht2 : t ∈ (dedupe all).filter (fun t' =>
        decide (t'.popularity < thr ∧ t'.id ∉ bestOfIds (dedupe all) ∧
          t'.albumType = "album")) :=
      List.mem_mergeSort.mp (List.mem_of_mem_take ht)
    have hpred := of_decide_eq_true (List.mem_filter.mp ht2).2
    exact hpred.2.1
  · exact List.sorted_mergeSort
      (fun a b c => strLeB_trans a.releaseDate b.releaseDate c.releaseDate)
      (fun a b => strLeB_total a.releaseDate b.releaseDate) (dedupe all)
  · exact chunksOf_flatten 100 (by omega) _
  · intro c hc
    exact chunksOf_mem_length 100 _ c hc
  · intro hcon i hi
    have hknd : ((dedupe all).map lowKey).Nodup := by
      have h1 : (dedupe all).map lowKey = (dedupeMap all).map Prod.fst := by
        unfold dedupe
        rw [List.map_map]
        exact List.map_congr_left (fun p hp => dedupeMap_keys all p hp)
      rw [h1]
      exact dedupeMap_nodupKeys all
    have hidnd : ((dedupe all).map DTrack.id).Nodup := by
      refine List.Nodup.map_on ?_ (List.Nodup.of_map lowKey hknd)
      intro x hx y hy hxy
      have hx' : x ∈ all := (mem_dedupe_char hx).1
      have hy' : y ∈ all := (mem_dedupe_char hy).1
      exact List.inj_on_of_nodup_map hknd hx hy (hcon x hx' y hy' hxy)
    have hperm : ((chronological (dedupe all)).map DTrack.id).Perm
        ((dedupe all).map DTrack.id) :=
      List.Perm.map DTrack.id (List.mergeSort_perm _ _)
    rw [List.Perm.count_eq hperm i]
    exact List.count_eq_one_of_mem hidnd hi

/-- Witness for C6 at a concrete three-track discography with a duplicate
lower-cased name: id-consistency holds and the kept id occurs exactly once
in the chronological list. -/
theorem claimC6_witness :
    (∀ t1 ∈ c6Tracks, ∀ t2 ∈ c6Tracks, t1.id = t2.id → lowKey t1 = lowKey t2) ∧
    ((chronological (dedupe c6Tracks)).map DTrack.id).count "i1" = 1 :=
  ⟨by decide,
   (claimC6_discography c6Tracks 40).2.2.2.2.2 (by decide) "i1" (by decide)⟩
